import Mathlib

/-!
Verification development for the AV1 block-parsing core of dav1d
(`src/decode.c`, `src/getbits.c`).

Conventions of the shallow embedding:
* C `int` arithmetic is modelled on `Int`; C `>> 1` on a signed int is an
  arithmetic (floor) shift, which is `Int` division `/ 2` in Lean, and
  `x & 1` agrees with `x % 2` (Euclidean remainder) on two's complement.
* The plain bit reader (`src/getbits.c`) is modelled as an MSB-first stream
  of bits (`List Bool`); the 64-bit shift register and byte refill of the C
  code are an implementation detail of that stream.
* The multi-symbol range coder (`src/msac.c`, not under `src/`) is modelled
  from the spec (section 4.B) as an oracle stream of already-decoded values:
  each `msac_decode_*` call consumes one element, reduced into the range the
  decoder guarantees for that call.
* Small lookup tables and helpers from headers that are not under `src/`
  (`common/intops.h`, `src/levels.h`, `src/tables.c`) are modelled from the
  spec where needed; each such definition says so in its doc comment.
-/

set_option linter.unusedVariables false

namespace Dav1d

/-- `iclip` from `common/intops.h` (header not under `src/`): clamp `v` into
`[lo, hi]`. -/

def iclip (v lo hi : Int) : Int :=
  if v < lo then lo else if v > hi then hi else v

/-- `ulog2` from `common/intops.h` (header not under `src/`): floor of the
base-2 logarithm (`31 - clz(v)` in C, defined for `v ≥ 1`). -/

def ulog2 (v : Nat) : Nat := Nat.log2 v

/-! ## `av1_neg_deinterleave` (src/decode.c lines 179-199), claim C2 -/


/-- `av1_neg_deinterleave` from `src/decode.c`: recover a segment id from the
coded difference `diff`, the neighbour prediction `ref` and the bound `mx`
(the C parameter `max`).  C `diff & 1` is `diff % 2 = 1` and the arithmetic
shifts `diff >> 1`, `(diff + 1) >> 1` are the floor divisions `/ 2`. -/

def av1_neg_deinterleave (diff ref mx : Int) : Int :=
  if ref = 0 then diff
  else if ref ≥ mx - 1 then mx - diff - 1
  else if 2 * ref < mx then
    if diff ≤ 2 * ref then
      (if diff % 2 = 1 then ref + (diff + 1) / 2 else ref - diff / 2)
    else diff
  else
    if diff ≤ 2 * (mx - ref - 1) then
      (if diff % 2 = 1 then ref + (diff + 1) / 2 else ref - diff / 2)
    else mx - (diff + 1)

/-- Inverse of `av1_neg_deinterleave` on its operating domain: maps a segment
id back to the coded difference.  Proof-internal helper (the encoder side is
not part of the decoder's sources). -/

def neg_interleave (s ref mx : Int) : Int :=
  if ref = 0 then s
  else if ref ≥ mx - 1 then mx - s - 1
  else if 2 * ref < mx then
    if s > 2 * ref then s
    else if s > ref then 2 * (s - ref) - 1
    else 2 * (ref - s)
  else
    if s ≤ 2 * ref - mx then mx - s - 1
    else if s > ref then 2 * (s - ref) - 1
    else 2 * (ref - s)

/-! ## Bit reader (src/getbits.c) and `get_uniform`, claim C8 -/


/-- MSB-first value of a bit list (`true` = 1). -/

def bitsToNat (l : List Bool) : Nat :=
  l.foldl (fun acc b => 2 * acc + (if b then 1 else 0)) 0

/-- MSB-first bit list of width `k` for `v` (low `k` bits of `v`). -/

def natToBits : Nat → Nat → List Bool
  | 0, _ => []
  | k + 1, v => natToBits k (v / 2) ++ [decide (v % 2 = 1)]

/-- `get_bits` from `src/getbits.c`, over the bit-stream model: consume `n`
bits MSB-first and return their value.  Past the end of the stream the C
reader latches `error` and yields zero bits; the model zero-pads
accordingly. -/

def get_bits (n : Nat) (s : List Bool) : Nat × List Bool :=
  (bitsToNat (s.take n ++ List.replicate (n - s.length) false), s.drop n)

/-- `get_uniform` from `src/getbits.c` lines 81-88: the two-step uniform
codebook over `[0, n)`.  In the C source `l = ulog2 n + 1` and
`m = (1 << l) - n`; the first read is of `l - 1 = ulog2 n` bits. -/

def get_uniform (n : Nat) (s : List Bool) : Nat × List Bool :=
  if (get_bits (ulog2 n) s).1 < 2 ^ (ulog2 n + 1) - n then
    get_bits (ulog2 n) s
  else
    (2 * (get_bits (ulog2 n) s).1 - (2 ^ (ulog2 n + 1) - n) +
       (get_bits 1 (get_bits (ulog2 n) s).2).1,
     (get_bits 1 (get_bits (ulog2 n) s).2).2)

/-- Modelled from the spec (round-trip law, section 8): the writer for the
same two-step uniform codebook that `get_uniform` reads — a first stage of
`l - 1 = ulog2 n` bits and a conditional second bit exactly when the
first-stage value is `≥ (1 << l) - n`.  No encoder exists in the decoder's
sources. -/

def put_uniform (n v : Nat) : List Bool :=
  if v < 2 ^ (ulog2 n + 1) - n then natToBits (ulog2 n) v
  else
    natToBits (ulog2 n) ((v + (2 ^ (ulog2 n + 1) - n)) / 2) ++
      [decide ((v + (2 ^ (ulog2 n + 1) - n)) % 2 = 1)]

/-! ## Range-coder oracle model

`src/msac.c` is not under `src/`.  Modelled from the spec (section 4.B): the
multi-symbol arithmetic decoder is an oracle stream of already-decoded
values; each `msac_decode_*` call consumes one stream element, reduced into
the range the decoder guarantees for that call (a symbol over `n` values is
`< n`, a flag is a bit, `decode_bools n` yields `n` uniform bits). -/


/-- Modelled from the spec: `msac_decode_symbol_adapt` over `n` symbols. -/

def msac_decode_symbol_adapt (s : List Nat) (n : Nat) : Nat × List Nat :=
  (s.headD 0 % n, s.tail)

/-- Modelled from the spec: `msac_decode_bool_adapt` (context-adaptive flag). -/

def msac_decode_bool_adapt (s : List Nat) : Bool × List Nat :=
  (decide (s.headD 0 % 2 = 1), s.tail)

/-- Modelled from the spec: `msac_decode_bool` with a fixed probability
`prob` (the probability only shapes the distribution, not the value set). -/

def msac_decode_bool (s : List Nat) (prob : Nat) : Bool × List Nat :=
  (decide (s.headD 0 % 2 = 1), s.tail)

/-- Modelled from the spec: `msac_decode_bools`, `n` uniform bits. -/

def msac_decode_bools (s : List Nat) (n : Nat) : Nat × List Nat :=
  (s.headD 0 % 2 ^ n, s.tail)

/-! ## Segment-id decoding in `decode_b` (src/decode.c lines 746-829), claim C3 -/


/-- `NUM_SEGMENTS` from `src/levels.h` (not under `src/`), modelled from the
spec: AV1 has 8 segments. -/

def NUM_SEGMENTS : Nat := 8

/-- The explicitly coded segment-id path shared by the preskip branch
(src/decode.c lines 764-775) and the postskip branch (lines 808-822) of
`decode_b`: decode `diff`, negatively deinterleave it against the neighbour
prediction `pred`, and silently replace any out-of-range value by 0.  In the
C source `b->seg_id` is compared against the `unsigned`
`last_active_seg_id`, so a negative deinterleave result converts to a huge
unsigned value and is also replaced by 0. -/

def read_seg_id_explicit (pred last : Nat) (s : List Nat) : Nat × List Nat :=
  (if av1_neg_deinterleave ((s.headD 0 % NUM_SEGMENTS : Nat) : Int) pred (last + 1) < 0 ∨
      (last : Int) < av1_neg_deinterleave ((s.headD 0 % NUM_SEGMENTS : Nat) : Int) pred (last + 1)
   then 0
   else (av1_neg_deinterleave ((s.headD 0 % NUM_SEGMENTS : Nat) : Int) pred (last + 1)).toNat,
   s.tail)

/-- The preskip segment-id stage of `decode_b` (src/decode.c lines 746-784).
`none` means `b->seg_id` is not assigned by this stage (deferred to the
postskip stage).  `prev_min` abstracts `get_prev_frame_segid` (the minimum
over the previous frame's segmentation map at the block footprint), `pred`
abstracts `get_cur_frame_segid` (`src/env.h`, not under `src/`).  The
returned `Bool` is the `seg_pred` flag later written to the above/left
contexts. -/

def decode_b_segid_preskip (enabled update_map preskip temporal have_prev : Bool)
    (prev_min pred last : Nat) (s : List Nat) : Option Nat × Bool × List Nat :=
  if enabled then
    if !update_map then (some (if have_prev then prev_min else 0), false, s)
    else if preskip then
      if temporal then
        let r := msac_decode_bool_adapt s
        if r.1 then (some (if have_prev then prev_min else 0), true, r.2)
        else
          let r2 := read_seg_id_explicit pred last r.2
          (some r2.1, false, r2.2)
      else
        let r2 := read_seg_id_explicit pred last s
        (some r2.1, false, r2.2)
    else (none, false, s)
  else (some 0, false, s)

/-- The postskip segment-id stage of `decode_b` (src/decode.c lines 793-829),
reached with the already-decoded `skip` flag.  `none` means the stage is not
taken (its gate `enabled && update_map && !preskip` failed). -/

def decode_b_segid_postskip (enabled update_map preskip temporal have_prev skip : Bool)
    (prev_min pred last : Nat) (s : List Nat) : Option Nat × Bool × List Nat :=
  if enabled && update_map && !preskip then
    if !skip && temporal then
      let r := msac_decode_bool_adapt s
      if r.1 then (some (if have_prev then prev_min else 0), true, r.2)
      else
        if skip then (some pred, false, r.2)
        else
          let r2 := read_seg_id_explicit pred last r.2
          (some r2.1, false, r2.2)
    else
      if skip then (some pred, false, s)
      else
        let r2 := read_seg_id_explicit pred last s
        (some r2.1, false, r2.2)
  else (none, false, s)

/-! ## Delta-q / delta-lf stage of `decode_b` (src/decode.c lines 848-910), claim C10 -/


/-- The shared delta token shape of the delta-q and delta-lf reads
(src/decode.c lines 856-859 and 887-892): a 4-ary symbol, with value 3
escaping to `n_bits = 1 + 3 raw bits` and a magnitude of
`n_bits` raw bits plus `1 + (1 << n_bits)`. -/

def read_delta_token (s : List Nat) : Nat × List Nat :=
  if (msac_decode_symbol_adapt s 4).1 = 3 then
    ((msac_decode_bools
        (msac_decode_bools (msac_decode_symbol_adapt s 4).2 3).2
        (1 + (msac_decode_bools (msac_decode_symbol_adapt s 4).2 3).1)).1 +
       1 + 2 ^ (1 + (msac_decode_bools (msac_decode_symbol_adapt s 4).2 3).1),
     (msac_decode_bools
        (msac_decode_bools (msac_decode_symbol_adapt s 4).2 3).2
        (1 + (msac_decode_bools (msac_decode_symbol_adapt s 4).2 3).1)).2)
  else ((msac_decode_symbol_adapt s 4).1, (msac_decode_symbol_adapt s 4).2)

/-- The sign-and-scale step shared by the delta-q and delta-lf reads
(src/decode.c lines 861-864 and 893-896): a nonzero magnitude is optionally
negated by a raw flag and scaled by `1 << res_log2`. -/

def read_delta_signed (res_log2 : Nat) (s : List Nat) : Int × List Nat :=
  if (read_delta_token s).1 ≠ 0 then
    ((if (msac_decode_bool (read_delta_token s).2 (128 <<< 7)).1
        then -((read_delta_token s).1 : Int)
        else ((read_delta_token s).1 : Int)) * 2 ^ res_log2,
     (msac_decode_bool (read_delta_token s).2 (128 <<< 7)).2)
  else (0, (read_delta_token s).2)

/-- The delta-lf loop body (src/decode.c lines 886-900), accumulating into
`ts->last_delta_lf[i]` for `i` from `i0` over `k` iterations, each clamped
into `[-63, 63]`. -/

def read_delta_lf_loop (res_log2 : Nat) : Nat → Nat → (Nat → Int) → List Nat →
    (Nat → Int) × List Nat
  | _, 0, lf, s => (lf, s)
  | i0, k + 1, lf, s =>
    read_delta_lf_loop res_log2 (i0 + 1) k
      (fun j => if j = i0 then iclip (lf i0 + (read_delta_signed res_log2 s).1) (-63) 63 else lf j)
      (read_delta_signed res_log2 s).2

/-- The delta-q / delta-lf stage of `decode_b` (src/decode.c lines 848-910).
The stage runs only when the block origin is superblock-aligned
(`!(bx & (31 >> !sb128)) && !(by & …)`).  `have_delta_q` additionally
requires `delta.q.present` and that the block is not a skipped
superblock-sized block.  The per-superblock dequant and loop-filter level
table rebuilds (`init_quant_tables`, `dav1d_calc_lf_values`) redirect
tile-local pointers and do not touch the running deltas; they are omitted.
Returns the new `(last_qidx, last_delta_lf, stream)`. -/

def decode_b_delta_q_lf (sb128 q_present lf_present lf_multi layout_mono bs_is_sbmax skip : Bool)
    (q_res_log2 lf_res_log2 bx by_ : Nat)
    (qidx : Int) (lf : Nat → Int) (s : List Nat) : Int × (Nat → Int) × List Nat :=
  if bx % (if sb128 then 32 else 16) = 0 ∧ by_ % (if sb128 then 32 else 16) = 0 then
    if q_present ∧ (¬bs_is_sbmax ∨ ¬skip) then
      if lf_present then
        (iclip (qidx + (read_delta_signed q_res_log2 s).1) 1 255,
         read_delta_lf_loop lf_res_log2 0
           (if lf_multi then (if layout_mono then 2 else 4) else 1)
           lf (read_delta_signed q_res_log2 s).2)
      else
        (iclip (qidx + (read_delta_signed q_res_log2 s).1) 1 255, lf,
         (read_delta_signed q_res_log2 s).2)
    else (qidx, lf, s)
  else (qidx, lf, s)

/-! ## `read_pal_plane` (src/decode.c lines 359-460), claim C7 -/


/-- One step of the palette-cache dedup (src/decode.c
`if (!n_cache || cache[n_cache - 1] != x) cache[n_cache++] = x`): append `x`
unless it equals the last entry. -/

def cache_push (acc : List Nat) (x : Nat) : List Nat :=
  if acc.getLast? = some x then acc else acc ++ [x]

/-- The fill/sort-cache loop of `read_pal_plane` (src/decode.c lines
374-404): merge the left and above cached palettes in ascending order,
deduplicating equal heads and adjacent repeats. -/

def fill_cache : List Nat → List Nat → List Nat → List Nat
  | [], [], acc => acc
  | [], a :: as_, acc => fill_cache [] as_ (cache_push acc a)
  | l :: ls, [], acc => fill_cache ls [] (cache_push acc l)
  | l :: ls, a :: as_, acc =>
    if l < a then fill_cache ls (a :: as_) (cache_push acc l)
    else if a = l then fill_cache ls as_ (cache_push acc a)
    else fill_cache (l :: ls) as_ (cache_push acc a)
termination_by ls as_ _ => ls.length + as_.length

/-- The reused-cache-entry selection of `read_pal_plane` (src/decode.c lines
407-411): for each cache entry, while fewer than `pal_sz` entries have been
kept, read one raw flag and keep the entry when it is set. -/

def select_used : List Nat → Nat → List Nat → List Nat × List Nat
  | [], _, s => ([], s)
  | _ :: _, 0, s => ([], s)
  | c :: cs, k + 1, s =>
    if (msac_decode_bool s (128 <<< 7)).1 then
      (c :: (select_used cs k (msac_decode_bool s (128 <<< 7)).2).1,
       (select_used cs k (msac_decode_bool s (128 <<< 7)).2).2)
    else select_used cs (k + 1) (msac_decode_bool s (128 <<< 7)).2

/-- The new-palette-entry loop of `read_pal_plane` (src/decode.c lines
424-433): each new entry is `imin (prev + delta + !pl) max` (`plext` is
`!pl`); when the range saturates (`prev + !pl >= max`) the remaining entries
repeat the last one; otherwise the bit width shrinks to
`imin bits (1 + ulog2 (max - prev - !pl))`. -/

def read_new_entries (plext mx : Nat) : Nat → Nat → Nat → List Nat → List Nat × List Nat
  | 0, _, _, s => ([], s)
  | k + 1, bits, prev, s =>
    if mx ≤ min (prev + (msac_decode_bools s bits).1 + plext) mx + plext then
      (min (prev + (msac_decode_bools s bits).1 + plext) mx ::
         List.replicate k (min (prev + (msac_decode_bools s bits).1 + plext) mx),
       (msac_decode_bools s bits).2)
    else
      (min (prev + (msac_decode_bools s bits).1 + plext) mx ::
         (read_new_entries plext mx k
            (min bits (1 + ulog2 (mx - min (prev + (msac_decode_bools s bits).1 + plext) mx - plext)))
            (min (prev + (msac_decode_bools s bits).1 + plext) mx)
            (msac_decode_bools s bits).2).1,
       (read_new_entries plext mx k
            (min bits (1 + ulog2 (mx - min (prev + (msac_decode_bools s bits).1 + plext) mx - plext)))
            (min (prev + (msac_decode_bools s bits).1 + plext) mx)
            (msac_decode_bools s bits).2).2)

/-- The cache/new-entry merge of `read_pal_plane` (src/decode.c lines
436-445): stable merge that prefers a cache entry when
`used_cache[n] <= pal[m]`. -/

def pal_merge : List Nat → List Nat → List Nat
  | [], ms => ms
  | n :: ns, [] => n :: pal_merge ns []
  | n :: ns, m :: ms =>
    if n ≤ m then n :: pal_merge ns (m :: ms) else m :: pal_merge (n :: ns) ms

/-- `read_pal_plane` (src/decode.c lines 359-460) over the oracle stream.
`pl` is the plane (false = luma), `bpc` the bit depth, `l_sz`/`a_sz` the
left/above palette-size contexts (`a_sz` already 0 outside SB64 rows, as at
line 371), and `lpal`/`apal` the cached left/above palettes (`t->al_pal`).
Returns `(pal_sz, palette, stream)`; the palette write into `t->pal` /
`frame_thread.pal` is the returned list. -/

def read_pal_plane (pl : Bool) (bpc l_sz a_sz : Nat) (lpal apal : List Nat)
    (s : List Nat) : Nat × List Nat × List Nat :=
  let pal_sz := 2 + (msac_decode_symbol_adapt s 7).1
  let s0 := (msac_decode_symbol_adapt s 7).2
  let cache := fill_cache (lpal.take l_sz) (apal.take a_sz) []
  let u := select_used cache pal_sz s0
  if u.1.length < pal_sz then
    let first := (msac_decode_bools u.2 bpc).1
    let s2 := (msac_decode_bools u.2 bpc).2
    if u.1.length + 1 < pal_sz then
      let bits0 := bpc - 3 + (msac_decode_bools s2 2).1
      let s3 := (msac_decode_bools s2 2).2
      let r := read_new_entries (if pl then 0 else 1) (2 ^ bpc - 1)
        (pal_sz - u.1.length - 1) bits0 first s3
      (pal_sz, pal_merge u.1 (first :: r.1), r.2)
    else (pal_sz, pal_merge u.1 [first], s2)
  else (pal_sz, u.1, u.2)

/-! ## `derive_warpmv` (src/decode.c lines 276-351), claim C5 -/


/-- One candidate `(source, target)` sample pair collected by
`derive_warpmv` (the `pts[8][2][2]` array): `in` is the source position,
`out` the target position. -/

structure WarpPt where
  inx : Int
  iny : Int
  outx : Int
  outy : Int
deriving Repr, DecidableEq, Inhabited

/-- The per-sample MV difference of `derive_warpmv` (src/decode.c lines
326-327): `labs(out.x - in.x - mv.x) + labs(out.y - in.y - mv.y)`. -/

def warp_mvd (mvx mvy : Int) (p : WarpPt) : Int :=
  |p.outx - p.inx - mvx| + |p.outy - p.iny - mvy|

/-- The `mvd[]` scratch fill of `derive_warpmv` (src/decode.c lines
325-332): each sample's MV difference, with values above the threshold
replaced by the discard mark `-1`. -/

def warp_mvd_list (mvx mvy thresh : Int) (pts : List WarpPt) : List Int :=
  pts.map (fun p => if warp_mvd mvx mvy p > thresh then -1 else warp_mvd mvx mvy p)

/-- `while (mvd[i] != -1) i++` (src/decode.c line 336): the first index `≥ i`
holding the discard mark (the array length when none remains, where the loop
would have crossed `j` and broken). -/

def first_discard (mvd : List Int) (i : Nat) : Nat :=
  i + List.findIdx (fun v => decide (v = -1)) (mvd.drop i)

/-- `while (mvd[j] == -1) j--` (src/decode.c line 337): the last index `≤ j`
holding a kept sample; `none` models the scan running past the start. -/

def last_keep (mvd : List Int) : Nat → Option Nat
  | 0 => if mvd.getD 0 0 ≠ -1 then some 0 else none
  | j + 1 => if mvd.getD (j + 1) 0 ≠ -1 then some (j + 1) else last_keep mvd j

/-- The discarded-sample compaction loop of `derive_warpmv` (src/decode.c
lines 335-343), with `r = np - ret` iterations remaining: move the rearmost
kept samples over the foremost discarded slots (`mvd[i] = mvd[j]`,
`memcpy(pts[i], pts[j])`), stopping when the scans cross. -/

def warp_compact : Nat → Nat → Nat → List WarpPt → List Int → List WarpPt × List Int
  | 0, _, _, pts, mvd => (pts, mvd)
  | r + 1, i, j, pts, mvd =>
    match last_keep mvd j with
    | none => (pts, mvd)
    | some j' =>
      if j' < first_discard mvd i then (pts, mvd)
      else
        warp_compact r (first_discard mvd i + 1) (j' - 1)
          (pts.set (first_discard mvd i) (pts.getD j' default))
          (mvd.set (first_discard mvd i) (mvd.getD j' 0))

/-- `derive_warpmv`'s sample selection and warp-type decision (src/decode.c
lines 322-351).  The sample collection from the neighbour masks (lines
286-318) needs the frame's refmvs grid and is abstracted as the given `pts`
(the source asserts `0 < np && np <= 8`).  `find_affine_int` and
`get_shear_params` live in `src/warpmv.c`, which is not under `src/`; they
are abstract pure parameters returning their C `int` result together with
the updated `WarpedMotionParams` state `α`.  Returns
`(pts after compaction, ret, type = WM_TYPE_AFFINE, final params)`; a
`false` third component is `WM_TYPE_IDENTITY`. -/

def derive_warpmv {α : Type} (find_affine_int : List WarpPt → Nat → α → Int × α)
    (get_shear_params : α → Int × α) (bw4 bh4 mvx mvy : Int)
    (pts : List WarpPt) (wmp : α) : List WarpPt × Nat × Bool × α :=
  let thresh := 4 * iclip (max bw4 bh4) 4 28
  let mvd := warp_mvd_list mvx mvy thresh pts
  let ret0 := mvd.countP (fun v => decide (v ≠ -1))
  let sel := if ret0 = 0 then (pts, 1)
             else ((warp_compact (pts.length - ret0) 0 (pts.length - 1) pts mvd).1, ret0)
  let r1 := find_affine_int sel.1 sel.2 wmp
  if r1.1 = 0 then
    let r2 := get_shear_params r1.2
    if r2.1 = 0 then (sel.1, sel.2, true, r2.2) else (sel.1, sel.2, false, r2.2)
  else (sel.1, sel.2, false, r1.2)

/-- Number of kept (`≠ -1`) entries of the compaction scratch at positions in
`[a, b)`. -/

def goodCnt (mvd : List Int) (a b : Nat) : Nat :=
  (List.range' a (b - a)).countP (fun t => decide (mvd.getD t 0 ≠ -1))

/-- Number of discarded entries in the whole compaction scratch. -/

def badTotal (mvd : List Int) : Nat := mvd.countP (fun v => decide (v = -1))

/-! ## Context grids, `decode_b` writeback and the partition walker
(claims C1, C4, C6, C9) -/


/-- Mode/partition constants from `src/levels.h` (not under `src/`),
modelled from the spec: `DC_PRED` is 0, `FILTER_PRED` follows the 13
ordinary intra modes, `COMP_INTER_NONE` is 0, and there are 3 switchable
subpel filters. -/

def DC_PRED : Nat := 0

/-- See `DC_PRED`. -/

def FILTER_PRED : Nat := 13

/-- See `DC_PRED`. -/

def COMP_INTER_NONE : Nat := 0

/-- See `DC_PRED`. -/

def N_SWITCHABLE_FILTERS : Nat := 3

/-- The per-block record `Av1Block` (declared in `src/decode.h`, not under
`src/`; fields as the spec's section 3 lists them, restricted to those the
embedded stages read or write). -/

structure Av1Block where
  bl : Nat
  bp : Nat
  bs : Nat
  intra : Nat
  seg_id : Nat
  skip_mode : Nat
  skip : Nat
  y_mode : Nat
  uv_mode : Nat
  pal_sz0 : Nat
  pal_sz1 : Nat
  tx : Nat
  uvtx : Nat
  comp_type : Nat
  inter_mode : Nat
  motion_mode : Nat
  ref0 : Int
  ref1 : Int
  filter2d : Nat
deriving Repr, DecidableEq, Inhabited

/-- One side (above or left) of the neighbour-context grid (`BlockContext`
in `src/env.h`, not under `src/`; fields as the spec's section 3 lists
them), indexed at 4x4 granularity. -/

structure BlockContext where
  mode : Nat → Nat
  uvmode : Nat → Nat
  intra : Nat → Nat
  skip : Nat → Nat
  skip_mode : Nat → Nat
  seg_pred : Nat → Nat
  pal_sz : Nat → Nat
  tx_intra : Nat → Int
  tx : Nat → Nat
  comp_type : Nat → Nat
  ref0 : Nat → Int
  ref1 : Nat → Int
  filter0 : Nat → Nat
  filter1 : Nat → Nat

/-- `memset(&arr[off], v, len)` over a functional array. -/

def ctxFill {β : Type} (g : Nat → β) (off len : Nat) (v : β) : Nat → β :=
  fun t => if off ≤ t ∧ t < off + len then v else g t

/-- The context writeback `decode_b` performs for an intra block
(src/decode.c lines 1099-1155) followed by the common tail every block runs
(lines 1737-1744).  `tLw`/`tLh` are `av1_txfm_dimensions[b->tx].lw/lh`
(`src/tables.c`, not under `src/`); `seg_pred` is the local flag of the
segment-id stage; the chroma coordinates are derived from the luma ones by
the subsampling shifts exactly as at lines 683-686.  The palette-size
contexts for chroma (`t->pal_sz_uv`) use luma coordinates (aomedia bug
2183).  The `al_pal` palette-content copies, the loop-filter mask
(`dav1d_create_lf_mask_intra`), the segmentation-map stamp and the refmvs
splats touch state outside the above/left grid and are omitted here.
Returns the updated `(above, left, pal_sz_uv[0], pal_sz_uv[1])`. -/

def decode_b_ctx_intra (b : Av1Block) (seg_pred : Nat)
    (frame_is_inter allow_intrabc has_chroma : Bool) (ss_hor ss_ver : Nat)
    (tLw tLh : Nat) (bx4 by4 bw4 bh4 : Nat)
    (a l : BlockContext) (pal_uv_a pal_uv_l : Nat → Nat) :
    BlockContext × BlockContext × (Nat → Nat) × (Nat → Nat) :=
  let cbx4 := bx4 >>> ss_hor
  let cby4 := by4 >>> ss_ver
  let cbw4 := (bw4 + ss_hor) >>> ss_hor
  let cbh4 := (bh4 + ss_ver) >>> ss_ver
  let y_mode_nofilt := if b.y_mode = FILTER_PRED then DC_PRED else b.y_mode
  let a1 : BlockContext :=
    { a with tx_intra := ctxFill a.tx_intra bx4 bw4 (tLw : Int),
             mode := ctxFill a.mode bx4 bw4 y_mode_nofilt,
             pal_sz := ctxFill a.pal_sz bx4 bw4 b.pal_sz0 }
  let l1 : BlockContext :=
    { l with tx_intra := ctxFill l.tx_intra by4 bh4 (tLh : Int),
             mode := ctxFill l.mode by4 bh4 y_mode_nofilt,
             pal_sz := ctxFill l.pal_sz by4 bh4 b.pal_sz0 }
  let a2 : BlockContext :=
    if has_chroma then { a1 with uvmode := ctxFill a1.uvmode cbx4 cbw4 b.uv_mode } else a1
  let l2 : BlockContext :=
    if has_chroma then { l1 with uvmode := ctxFill l1.uvmode cby4 cbh4 b.uv_mode } else l1
  let pal_uv_a2 :=
    if has_chroma then ctxFill pal_uv_a bx4 bw4 b.pal_sz1 else ctxFill pal_uv_a bx4 bw4 0
  let pal_uv_l2 :=
    if has_chroma then ctxFill pal_uv_l by4 bh4 b.pal_sz1 else ctxFill pal_uv_l by4 bh4 0
  let a3 : BlockContext :=
    if frame_is_inter || allow_intrabc then { a2 with tx := ctxFill a2.tx bx4 bw4 tLw } else a2
  let l3 : BlockContext :=
    if frame_is_inter || allow_intrabc then { l2 with tx := ctxFill l2.tx by4 bh4 tLh } else l2
  let a4 : BlockContext :=
    if frame_is_inter then
      { a3 with comp_type := ctxFill a3.comp_type bx4 bw4 COMP_INTER_NONE,
                ref0 := ctxFill a3.ref0 bx4 bw4 (-1),
                ref1 := ctxFill a3.ref1 bx4 bw4 (-1),
                filter0 := ctxFill a3.filter0 bx4 bw4 N_SWITCHABLE_FILTERS,
                filter1 := ctxFill a3.filter1 bx4 bw4 N_SWITCHABLE_FILTERS }
    else a3
  let l4 : BlockContext :=
    if frame_is_inter then
      { l3 with comp_type := ctxFill l3.comp_type by4 bh4 COMP_INTER_NONE,
                ref0 := ctxFill l3.ref0 by4 bh4 (-1),
                ref1 := ctxFill l3.ref1 by4 bh4 (-1),
                filter0 := ctxFill l3.filter0 by4 bh4 N_SWITCHABLE_FILTERS,
                filter1 := ctxFill l3.filter1 by4 bh4 N_SWITCHABLE_FILTERS }
    else l3
  let a5 : BlockContext :=
    { a4 with seg_pred := ctxFill a4.seg_pred bx4 bw4 seg_pred,
              skip_mode := ctxFill a4.skip_mode bx4 bw4 b.skip_mode,
              intra := ctxFill a4.intra bx4 bw4 b.intra,
              skip := ctxFill a4.skip bx4 bw4 b.skip }
  let l5 : BlockContext :=
    { l4 with seg_pred := ctxFill l4.seg_pred by4 bh4 seg_pred,
              skip_mode := ctxFill l4.skip_mode by4 bh4 b.skip_mode,
              intra := ctxFill l4.intra by4 bh4 b.intra,
              skip := ctxFill l4.skip by4 bh4 b.skip }
  (a5, l5, pal_uv_a2, pal_uv_l2)

/-- Partition shapes in the spec's order (section 4.G; `src/levels.h` is not
under `src/`): `N_PARTITIONS = 10`, `N_SUB8X8_PARTITIONS = 4`. -/

inductive BlockPartition where
  | NONE
  | H
  | V
  | SPLIT
  | T_TOP_SPLIT
  | T_BOTTOM_SPLIT
  | T_LEFT_SPLIT
  | T_RIGHT_SPLIT
  | H4
  | V4
deriving DecidableEq, Repr, Inhabited

/-- Decode a partition symbol value into a shape (spec order). -/

def partFromNat : Nat → BlockPartition
  | 0 => .NONE
  | 1 => .H
  | 2 => .V
  | 3 => .SPLIT
  | 4 => .T_TOP_SPLIT
  | 5 => .T_BOTTOM_SPLIT
  | 6 => .T_LEFT_SPLIT
  | 7 => .T_RIGHT_SPLIT
  | 8 => .H4
  | _ => .V4

/-- The intra-edge tree (`EdgeNode`/`EdgeBranch`/`EdgeTip`, built in
`src/intra_edge.c`, not under `src/`): only the `split[0..3]` recursion
structure matters to the walker; the per-child edge flags are consumed by
`decode_b` and are abstracted away. -/

inductive EdgeNd where
  | tip
  | branch (s0 s1 s2 s3 : EdgeNd)

/-- One `decode_b` invocation as recorded by the walker: level, partition
and block origin in 4x4 units.  The block size passed to `decode_b` is the
table lookup `av1_block_sizes[bl][bp]` (`src/tables.c`). -/

structure DecBCall where
  bl : Nat
  bp : BlockPartition
  bx : Nat
  by_ : Nat
deriving DecidableEq, Repr

/-- Walker state: the tile's MSAC oracle stream, the `decode_b`-visible
context state `σ`, and the ledger of `decode_b` invocations. -/

structure WalkSt (σ : Type) where
  stream : List Nat
  ctx : σ
  calls : List DecBCall

/-- Frame-level inputs of the walker: frame size in 4x4 units, the chroma
layout, the frame-thread pass, and the pre-parsed block-record array
(`f->frame_thread.b`, indexed `[by][bx]`). -/

structure SbFrame where
  bw : Nat
  bh : Nat
  layoutI422 : Bool
  pass2 : Bool
  b : Nat → Nat → Av1Block

/-- Invoke the abstracted `decode_b` and record the call. -/

def callB {σ : Type} (db : DecBCall → List Nat × σ → List Nat × σ)
    (bl : Nat) (bp : BlockPartition) (bx by_ : Nat) (st : WalkSt σ) : WalkSt σ :=
  { stream := (db ⟨bl, bp, bx, by_⟩ (st.stream, st.ctx)).1,
    ctx := (db ⟨bl, bp, bx, by_⟩ (st.stream, st.ctx)).2,
    calls := st.calls ++ [⟨bl, bp, bx, by_⟩] }

/-- The above/left partition-context stamp at the end of `decode_sb`
(src/decode.c lines 1977-1980; values from `av1_al_part_ctx` in
`src/tables.c`): applied when not in pass 2 and the block was terminal
(`bp != PARTITION_SPLIT || bl == BL_8X8`). -/

def sb_finish {σ : Type} (wr : Nat → BlockPartition → σ → σ) (pass2 : Bool) (bl : Nat)
    (bp : BlockPartition) (r : Except Unit (WalkSt σ)) : Except Unit (WalkSt σ) :=
  match r with
  | .error e => .error e
  | .ok st =>
    if ¬pass2 ∧ (bp ≠ .SPLIT ∨ bl = 4) then .ok { st with ctx := wr bl bp st.ctx }
    else .ok st

/-- The terminal partition arms of `decode_sb`'s two-way-split branch
(src/decode.c lines 1800-1917, every `case` except the recursive
`PARTITION_SPLIT` at `bl < BL_8X8`): the `decode_b` call pattern of each
shape, including the skipped fourth H4/V4 child beyond the frame edge and
the four 4x4 blocks of a BL_8X8 split. -/

def sb_terminal {σ : Type} (db : DecBCall → List Nat × σ → List Nat × σ) (f : SbFrame)
    (bl : Nat) (bp : BlockPartition) (bx by_ : Nat) (st : WalkSt σ) : WalkSt σ :=
  match bp with
  | .NONE => callB db bl .NONE bx by_ st
  | .H => callB db bl .H bx (by_ + 16 >>> bl) (callB db bl .H bx by_ st)
  | .V => callB db bl .V (bx + 16 >>> bl) by_ (callB db bl .V bx by_ st)
  | .SPLIT =>
    callB db bl .SPLIT (bx + 1) (by_ + 1)
      (callB db bl .SPLIT bx (by_ + 1)
        (callB db bl .SPLIT (bx + 1) by_
          (callB db bl .SPLIT bx by_ st)))
  | .T_TOP_SPLIT =>
    callB db bl .T_TOP_SPLIT bx (by_ + 16 >>> bl)
      (callB db bl .T_TOP_SPLIT (bx + 16 >>> bl) by_
        (callB db bl .T_TOP_SPLIT bx by_ st))
  | .T_BOTTOM_SPLIT =>
    callB db bl .T_BOTTOM_SPLIT (bx + 16 >>> bl) (by_ + 16 >>> bl)
      (callB db bl .T_BOTTOM_SPLIT bx (by_ + 16 >>> bl)
        (callB db bl .T_BOTTOM_SPLIT bx by_ st))
  | .T_LEFT_SPLIT =>
    callB db bl .T_LEFT_SPLIT (bx + 16 >>> bl) by_
      (callB db bl .T_LEFT_SPLIT bx (by_ + 16 >>> bl)
        (callB db bl .T_LEFT_SPLIT bx by_ st))
  | .T_RIGHT_SPLIT =>
    callB db bl .T_RIGHT_SPLIT (bx + 16 >>> bl) (by_ + 16 >>> bl)
      (callB db bl .T_RIGHT_SPLIT (bx + 16 >>> bl) by_
        (callB db bl .T_RIGHT_SPLIT bx by_ st))
  | .H4 =>
    let st3 := callB db bl .H4 bx (by_ + 2 * (16 >>> bl >>> 1))
      (callB db bl .H4 bx (by_ + 16 >>> bl >>> 1)
        (callB db bl .H4 bx by_ st))
    if by_ + 3 * (16 >>> bl >>> 1) < f.bh then
      callB db bl .H4 bx (by_ + 3 * (16 >>> bl >>> 1)) st3
    else st3
  | .V4 =>
    let st3 := callB db bl .V4 (bx + 2 * (16 >>> bl >>> 1)) by_
      (callB db bl .V4 (bx + 16 >>> bl >>> 1) by_
        (callB db bl .V4 bx by_ st))
    if bx + 3 * (16 >>> bl >>> 1) < f.bw then
      callB db bl .V4 (bx + 3 * (16 >>> bl >>> 1)) by_ st3
    else st3

/-- The partition `decode_sb` settles on at a both-ways-splittable position:
from the pre-parsed block record in pass 2 (src/decode.c lines 1780-1782),
from the level-sized partition symbol otherwise (lines 1784-1786). -/

def sb_part (f : SbFrame) (bl bx by_ : Nat) (st : WalkSt σ) : BlockPartition × WalkSt σ :=
  if f.pass2 then
    (if (f.b by_ bx).bl = bl then partFromNat (f.b by_ bx).bp else .SPLIT, st)
  else
    (partFromNat (msac_decode_symbol_adapt st.stream
        (if bl = 4 then 4 else if bl = 0 then 8 else 10)).1,
     { st with stream := (msac_decode_symbol_adapt st.stream
        (if bl = 4 then 4 else if bl = 0 then 8 else 10)).2 })

/-- The split decision at a one-way-splittable position: from the
pre-parsed record in pass 2 (src/decode.c lines 1920-1922 / 1948-1950),
from a single gathered-probability flag otherwise (lines 1924-1925 /
1952-1953; `gather_top/left_partition_prob` only shape the probability). -/

def sb_is_split (f : SbFrame) (bl bx by_ : Nat) (st : WalkSt σ) : Bool × WalkSt σ :=
  if f.pass2 then ((f.b by_ bx).bl ≠ bl, st)
  else ((msac_decode_bool st.stream 0).1,
    { st with stream := (msac_decode_bool st.stream 0).2 })

/-- `decode_sb` (src/decode.c lines 1753-1983) over the oracle stream and
the abstracted `decode_b` (`db`).  `bl` counts levels `0 = BL_128X128` to
`4 = BL_8X8`; `hsz = 16 >> bl`.  The two `return 1` statements (the 4:2:2
V-family rejection at lines 1787-1792 and 1954-1955) are `.error ()`.  The
C source asserts `bl < BL_8X8` in the one-sided and no-split branches and
in the branch-node casts; the model returns `.ok` on those unreachable
shapes. -/

def decode_sb {σ : Type} (wr : Nat → BlockPartition → σ → σ)
    (db : DecBCall → List Nat × σ → List Nat × σ) (f : SbFrame) :
    EdgeNd → Nat → Nat → Nat → WalkSt σ → Except Unit (WalkSt σ)
  | node, bl, bx, by_, st =>
    if ¬ (bx + 16 >>> bl < f.bw) ∧ ¬ (by_ + 16 >>> bl < f.bh) then
      match node with
      | .branch s0 _ _ _ =>
        if bl < 4 then decode_sb wr db f s0 (bl + 1) bx by_ st else .ok st
      | .tip => .ok st
    else if bx + 16 >>> bl < f.bw ∧ by_ + 16 >>> bl < f.bh then
      if ¬f.pass2 ∧ f.layoutI422 ∧
          ((sb_part f bl bx by_ st).1 = .V ∨ (sb_part f bl bx by_ st).1 = .V4 ∨
           (sb_part f bl bx by_ st).1 = .T_LEFT_SPLIT ∨
           (sb_part f bl bx by_ st).1 = .T_RIGHT_SPLIT) then
        .error ()
      else
        sb_finish wr f.pass2 bl (sb_part f bl bx by_ st).1
          (if (sb_part f bl bx by_ st).1 = .SPLIT ∧ bl ≠ 4 then
            match node with
            | .branch s0 s1 s2 s3 =>
              match decode_sb wr db f s0 (bl + 1) bx by_ (sb_part f bl bx by_ st).2 with
              | .error e => .error e
              | .ok st2 =>
                match decode_sb wr db f s1 (bl + 1) (bx + 16 >>> bl) by_ st2 with
                | .error e => .error e
                | .ok st3 =>
                  match decode_sb wr db f s2 (bl + 1) bx (by_ + 16 >>> bl) st3 with
                  | .error e => .error e
                  | .ok st4 =>
                    decode_sb wr db f s3 (bl + 1) (bx + 16 >>> bl) (by_ + 16 >>> bl) st4
            | .tip => .ok (sb_part f bl bx by_ st).2
          else
            .ok (sb_terminal db f bl (sb_part f bl bx by_ st).1 bx by_
                  (sb_part f bl bx by_ st).2))
    else if bx + 16 >>> bl < f.bw then
      if (sb_is_split f bl bx by_ st).1 then
        if bl < 4 then
          match node with
          | .branch s0 s1 _ _ =>
            match decode_sb wr db f s0 (bl + 1) bx by_ (sb_is_split f bl bx by_ st).2 with
            | .error e => .error e
            | .ok st2 =>
              sb_finish wr f.pass2 bl .SPLIT
                (decode_sb wr db f s1 (bl + 1) (bx + 16 >>> bl) by_ st2)
          | .tip => .ok (sb_is_split f bl bx by_ st).2
        else .ok (sb_is_split f bl bx by_ st).2
      else
        sb_finish wr f.pass2 bl .H
          (.ok (callB db bl .H bx by_ (sb_is_split f bl bx by_ st).2))
    else
      if ¬f.pass2 ∧ f.layoutI422 ∧ (sb_is_split f bl bx by_ st).1 = false then .error ()
      else if (sb_is_split f bl bx by_ st).1 then
        if bl < 4 then
          match node with
          | .branch s0 _ s2 _ =>
            match decode_sb wr db f s0 (bl + 1) bx by_ (sb_is_split f bl bx by_ st).2 with
            | .error e => .error e
            | .ok st2 =>
              sb_finish wr f.pass2 bl .SPLIT
                (decode_sb wr db f s2 (bl + 1) bx (by_ + 16 >>> bl) st2)
          | .tip => .ok (sb_is_split f bl bx by_ st).2
        else .ok (sb_is_split f bl bx by_ st).2
      else
        sb_finish wr f.pass2 bl .V
          (.ok (callB db bl .V bx by_ (sb_is_split f bl bx by_ st).2))

/-- The V-family partitions rejected on a 4:2:2 layout (src/decode.c
lines 1787-1790): `PARTITION_V`, `PARTITION_V4`, `PARTITION_T_LEFT_SPLIT`,
`PARTITION_T_RIGHT_SPLIT`. -/

def v_family : BlockPartition → Bool
  | .V => true
  | .V4 => true
  | .T_LEFT_SPLIT => true
  | .T_RIGHT_SPLIT => true
  | _ => false

/-- A context writer that ignores its input: the trivial instantiation of
the walker's partition-context stamp, for concrete evaluation. -/

def wrU : Nat → BlockPartition → Unit → Unit := fun _ _ _ => ()

/-- A `decode_b` that parses nothing: the trivial instantiation of the
walker's block stage, for concrete evaluation. -/

def dbU : DecBCall → List Nat × Unit → List Nat × Unit := fun _ p => p

/-- A concrete 2x2 (in 4x4 units) 4:2:2 pass-1 frame. -/

def f422 : SbFrame := ⟨2, 2, true, false, fun _ _ => default⟩

/-- A concrete 2x2 (in 4x4 units) non-4:2:2 pass-1 frame. -/

def f420 : SbFrame := ⟨2, 2, false, false, fun _ _ => default⟩

/-- An 8x8 (in 4x4 units) non-4:2:2 pass-1 frame for the C9 witness. -/

def f9 : SbFrame := ⟨8, 8, false, false, fun _ _ => default⟩

/-- The early pass-2 branch of `decode_b` (src/decode.c lines 693-727): the
block record is read back from the pre-parsed array, the reconstruction
hooks run, and only the above/left mode, uv-mode, filter and intra-flag
contexts are refreshed; the branch contains no MSAC call and returns before
any symbol is parsed.  `filterDir` is `eve_av1_filter_dir` (src/tables.c,
not under `src/`); the reconstruction calls and the pass-2 `find_matching_ref`
/ `derive_warpmv` recomputation touch no context modelled here. -/

def decode_b_pass2 (b : Av1Block) (filterDir : Nat → Nat × Nat) (has_chroma : Bool)
    (ss_hor ss_ver bx4 by4 bw4 bh4 : Nat) (a l : BlockContext) :
    BlockContext × BlockContext :=
  let cbx4 := bx4 >>> ss_hor
  let cby4 := by4 >>> ss_ver
  let cbw4 := (bw4 + ss_hor) >>> ss_hor
  let cbh4 := (bh4 + ss_ver) >>> ss_ver
  let al1 : BlockContext × BlockContext :=
    if b.intra ≠ 0 then
      let y_mode_nofilt := if b.y_mode = FILTER_PRED then DC_PRED else b.y_mode
      let a1 := if has_chroma then
        { a with uvmode := ctxFill a.uvmode cbx4 cbw4 b.uv_mode } else a
      let l1 := if has_chroma then
        { l with uvmode := ctxFill l.uvmode cby4 cbh4 b.uv_mode } else l
      ({ a1 with mode := ctxFill a1.mode bx4 bw4 y_mode_nofilt },
       { l1 with mode := ctxFill l1.mode by4 bh4 y_mode_nofilt })
    else
      let a1 := { a with filter0 := ctxFill a.filter0 bx4 bw4 (filterDir b.filter2d).1,
                         filter1 := ctxFill a.filter1 bx4 bw4 (filterDir b.filter2d).2 }
      let l1 := { l with filter0 := ctxFill l.filter0 by4 bh4 (filterDir b.filter2d).1,
                         filter1 := ctxFill l.filter1 by4 bh4 (filterDir b.filter2d).2 }
      (if has_chroma then { a1 with uvmode := ctxFill a1.uvmode cbx4 cbw4 DC_PRED } else a1,
       if has_chroma then { l1 with uvmode := ctxFill l1.uvmode cby4 cbh4 DC_PRED } else l1)
  ({ al1.1 with intra := ctxFill al1.1.intra bx4 bw4 b.intra },
   { al1.2 with intra := ctxFill al1.2.intra by4 bh4 b.intra })

/-- Pass-2 `decode_b` lifted to the walker's block-stage interface: the
record comes from the pre-parsed array at the call's origin, the grid
offsets are `t->bx & 31` / `t->by & 31`, the dimensions come from the size
table `dim` (`av1_block_dimensions`, src/tables.c), and the oracle stream
is returned verbatim. -/

def decode_b_pass2_db (f : SbFrame) (filterDir : Nat → Nat × Nat) (has_chroma : Bool)
    (ss_hor ss_ver : Nat) (dim : Nat → Nat × Nat) :
    DecBCall → List Nat × (BlockContext × BlockContext) →
      List Nat × (BlockContext × BlockContext) :=
  fun c p =>
    (p.1, decode_b_pass2 (f.b c.by_ c.bx) filterDir has_chroma ss_hor ss_ver
      (c.bx % 32) (c.by_ % 32) (dim (f.b c.by_ c.bx).bs).1 (dim (f.b c.by_ c.bx).bs).2
      p.2.1 p.2.2)

/-- Modelled from the spec: the pass-2 block stage as a pure context map,
for comparison with the stream-threading walker. -/

def callB_p2 {σ : Type} (g : DecBCall → σ → σ) (bl : Nat) (bp : BlockPartition)
    (bx by_ : Nat) (p : σ × List DecBCall) : σ × List DecBCall :=
  (g ⟨bl, bp, bx, by_⟩ p.1, p.2 ++ [⟨bl, bp, bx, by_⟩])

/-- Modelled from the spec: the coder-free terminal call patterns of the
pass-2 walk (same shapes as `sb_terminal`, no stream). -/

def sb_terminal_p2 {σ : Type} (g : DecBCall → σ → σ) (f : SbFrame)
    (bl : Nat) (bp : BlockPartition) (bx by_ : Nat) (p : σ × List DecBCall) :
    σ × List DecBCall :=
  match bp with
  | .NONE => callB_p2 g bl .NONE bx by_ p
  | .H => callB_p2 g bl .H bx (by_ + 16 >>> bl) (callB_p2 g bl .H bx by_ p)
  | .V => callB_p2 g bl .V (bx + 16 >>> bl) by_ (callB_p2 g bl .V bx by_ p)
  | .SPLIT =>
    callB_p2 g bl .SPLIT (bx + 1) (by_ + 1)
      (callB_p2 g bl .SPLIT bx (by_ + 1)
        (callB_p2 g bl .SPLIT (bx + 1) by_
          (callB_p2 g bl .SPLIT bx by_ p)))
  | .T_TOP_SPLIT =>
    callB_p2 g bl .T_TOP_SPLIT bx (by_ + 16 >>> bl)
      (callB_p2 g bl .T_TOP_SPLIT (bx + 16 >>> bl) by_
        (callB_p2 g bl .T_TOP_SPLIT bx by_ p))
  | .T_BOTTOM_SPLIT =>
    callB_p2 g bl .T_BOTTOM_SPLIT (bx + 16 >>> bl) (by_ + 16 >>> bl)
      (callB_p2 g bl .T_BOTTOM_SPLIT bx (by_ + 16 >>> bl)
        (callB_p2 g bl .T_BOTTOM_SPLIT bx by_ p))
  | .T_LEFT_SPLIT =>
    callB_p2 g bl .T_LEFT_SPLIT (bx + 16 >>> bl) by_
      (callB_p2 g bl .T_LEFT_SPLIT bx (by_ + 16 >>> bl)
        (callB_p2 g bl .T_LEFT_SPLIT bx by_ p))
  | .T_RIGHT_SPLIT =>
    callB_p2 g bl .T_RIGHT_SPLIT (bx + 16 >>> bl) (by_ + 16 >>> bl)
      (callB_p2 g bl .T_RIGHT_SPLIT (bx + 16 >>> bl) by_
        (callB_p2 g bl .T_RIGHT_SPLIT bx by_ p))
  | .H4 =>
    let p3 := callB_p2 g bl .H4 bx (by_ + 2 * (16 >>> bl >>> 1))
      (callB_p2 g bl .H4 bx (by_ + 16 >>> bl >>> 1)
        (callB_p2 g bl .H4 bx by_ p))
    if by_ + 3 * (16 >>> bl >>> 1) < f.bh then
      callB_p2 g bl .H4 bx (by_ + 3 * (16 >>> bl >>> 1)) p3
    else p3
  | .V4 =>
    let p3 := callB_p2 g bl .V4 (bx + 2 * (16 >>> bl >>> 1)) by_
      (callB_p2 g bl .V4 (bx + 16 >>> bl >>> 1) by_
        (callB_p2 g bl .V4 bx by_ p))
    if bx + 3 * (16 >>> bl >>> 1) < f.bw then
      callB_p2 g bl .V4 (bx + 3 * (16 >>> bl >>> 1)) by_ p3
    else p3

/-- Modelled from the spec: the coder-free pass-2 partition walk.  Every
decision the pass-2 walker takes comes from the pre-parsed block array
(`b->bl` / `b->bp`), the partition-context stamp is disabled, no error is
possible, and no oracle stream exists: only the block-stage context `σ`
and the call ledger are threaded. -/

def decode_sb_p2 {σ : Type} (g : DecBCall → σ → σ) (f : SbFrame) :
    EdgeNd → Nat → Nat → Nat → σ × List DecBCall → σ × List DecBCall
  | node, bl, bx, by_, p =>
    if ¬(bx + 16 >>> bl < f.bw) ∧ ¬(by_ + 16 >>> bl < f.bh) then
      match node with
      | .branch s0 _ _ _ => if bl < 4 then decode_sb_p2 g f s0 (bl + 1) bx by_ p else p
      | .tip => p
    else if bx + 16 >>> bl < f.bw ∧ by_ + 16 >>> bl < f.bh then
      if (if (f.b by_ bx).bl = bl then partFromNat (f.b by_ bx).bp else .SPLIT) = .SPLIT ∧
          bl ≠ 4 then
        match node with
        | .branch s0 s1 s2 s3 =>
          decode_sb_p2 g f s3 (bl + 1) (bx + 16 >>> bl) (by_ + 16 >>> bl)
            (decode_sb_p2 g f s2 (bl + 1) bx (by_ + 16 >>> bl)
              (decode_sb_p2 g f s1 (bl + 1) (bx + 16 >>> bl) by_
                (decode_sb_p2 g f s0 (bl + 1) bx by_ p)))
        | .tip => p
      else
        sb_terminal_p2 g f bl
          (if (f.b by_ bx).bl = bl then partFromNat (f.b by_ bx).bp else .SPLIT) bx by_ p
    else if bx + 16 >>> bl < f.bw then
      if (f.b by_ bx).bl ≠ bl then
        if bl < 4 then
          match node with
          | .branch s0 s1 _ _ =>
            decode_sb_p2 g f s1 (bl + 1) (bx + 16 >>> bl) by_
              (decode_sb_p2 g f s0 (bl + 1) bx by_ p)
          | .tip => p
        else p
      else callB_p2 g bl .H bx by_ p
    else
      if (f.b by_ bx).bl ≠ bl then
        if bl < 4 then
          match node with
          | .branch s0 _ s2 _ =>
            decode_sb_p2 g f s2 (bl + 1) bx (by_ + 16 >>> bl)
              (decode_sb_p2 g f s0 (bl + 1) bx by_ p)
          | .tip => p
        else p
      else callB_p2 g bl .V bx by_ p

/-- The all-zero neighbour context, for concrete evaluation. -/

def ctxB : BlockContext :=
  ⟨fun _ => 0, fun _ => 0, fun _ => 0, fun _ => 0, fun _ => 0, fun _ => 0,
   fun _ => 0, fun _ => 0, fun _ => 0, fun _ => 0, fun _ => 0, fun _ => 0,
   fun _ => 0, fun _ => 0⟩

/-- A trivial filter-direction table, for concrete evaluation. -/

def fdU : Nat → Nat × Nat := fun _ => (0, 0)

/-- A trivial block-dimension table, for concrete evaluation. -/

def dimU : Nat → Nat × Nat := fun _ => (1, 1)

/-- A concrete 2x2 pass-2 frame. -/

def fp2 : SbFrame := ⟨2, 2, false, true, fun _ _ => default⟩

/-- The pure context transform of the concrete pass-2 block stage. -/

def gP : DecBCall → (BlockContext × BlockContext) → (BlockContext × BlockContext) :=
  fun c cx => decode_b_pass2 (fp2.b c.by_ c.bx) fdU true 1 1 (c.bx % 32) (c.by_ % 32)
    (dimU (fp2.b c.by_ c.bx).bs).1 (dimU (fp2.b c.by_ c.bx).bs).2 cx.1 cx.2

/-- A context-preserving partition stamp over the pass-2 context pair. -/

def wrB : Nat → BlockPartition → (BlockContext × BlockContext) →
    (BlockContext × BlockContext) := fun _ _ p => p

/-- A concrete intra block whose luma mode is `FILTER_PRED`, the one mode
the context writeback does not store verbatim. -/

def bF : Av1Block := { (default : Av1Block) with intra := 1, y_mode := FILTER_PRED }

theorem neg_interleave_left_inv (ref mx d : Int) (h0 : 0 ≤ ref)
    (h1 : ref ≤ mx - 1) (hd0 : 0 ≤ d) (hd1 : d ≤ mx - 1) :
    neg_interleave (av1_neg_deinterleave d ref mx) ref mx = d := by
  unfold av1_neg_deinterleave neg_interleave
  split_ifs <;> omega

theorem neg_deinterleave_mem (ref mx d : Int) (h0 : 0 ≤ ref)
    (h1 : ref ≤ mx - 1) (hd0 : 0 ≤ d) (hd1 : d ≤ mx - 1) :
    0 ≤ av1_neg_deinterleave d ref mx ∧ av1_neg_deinterleave d ref mx ≤ mx - 1 := by
  unfold av1_neg_deinterleave
  split_ifs <;> omega

theorem neg_interleave_right_inv (ref mx s : Int) (h0 : 0 ≤ ref)
    (h1 : ref ≤ mx - 1) (hs0 : 0 ≤ s) (hs1 : s ≤ mx - 1) :
    av1_neg_deinterleave (neg_interleave s ref mx) ref mx = s := by
  unfold av1_neg_deinterleave neg_interleave
  split_ifs <;> omega

theorem neg_interleave_mem (ref mx s : Int) (h0 : 0 ≤ ref)
    (h1 : ref ≤ mx - 1) (hs0 : 0 ≤ s) (hs1 : s ≤ mx - 1) :
    0 ≤ neg_interleave s ref mx ∧ neg_interleave s ref mx ≤ mx - 1 := by
  unfold neg_interleave
  split_ifs <;> omega

/-- Claim C2 (corrected): the claim as frozen quantifies over `0 ≤ ref ≤ max`
and asserts that `diff ↦ av1_neg_deinterleave diff ref max` permutes
`[0, max]`; at `ref = 1, max = 2` the image of `diff = 2` is `-1`, outside
the interval, so the claim fails as stated. -/

theorem neg_deinterleave_not_perm_counterexample :
    (0 : Int) ≤ 1 ∧ (1 : Int) ≤ 2 ∧ (0 : Int) ≤ 2 ∧ (2 : Int) ≤ 2 ∧
    av1_neg_deinterleave 2 1 2 = -1 ∧ ¬ (0 ≤ av1_neg_deinterleave 2 1 2) := by
  refine ⟨by norm_num, by norm_num, by norm_num, by norm_num, by decide, by decide⟩

/-- Claim C2 (amended): for all `0 ≤ ref ≤ max`, the map
`diff ↦ av1_neg_deinterleave diff ref (max + 1)` — the parametrisation used
by both call sites in `decode_b`, which pass `last_active_segid + 1` as the
third argument — is a permutation of the integer interval `[0, max]`: it maps
the interval into itself, is injective on it, and attains every value of it. -/

theorem neg_deinterleave_perm (ref mx : Int) (h0 : 0 ≤ ref) (h1 : ref ≤ mx) :
    (∀ d, 0 ≤ d → d ≤ mx →
        0 ≤ av1_neg_deinterleave d ref (mx + 1) ∧
        av1_neg_deinterleave d ref (mx + 1) ≤ mx) ∧
    (∀ d e, 0 ≤ d → d ≤ mx → 0 ≤ e → e ≤ mx →
        av1_neg_deinterleave d ref (mx + 1) = av1_neg_deinterleave e ref (mx + 1) →
        d = e) ∧
    (∀ s, 0 ≤ s → s ≤ mx →
        ∃ d, 0 ≤ d ∧ d ≤ mx ∧ av1_neg_deinterleave d ref (mx + 1) = s) := by
  have hb : ref ≤ (mx + 1) - 1 := by omega
  refine ⟨?_, ?_, ?_⟩
  · intro d hd0 hd1
    have := neg_deinterleave_mem ref (mx + 1) d h0 hb hd0 (by omega)
    omega
  · intro d e hd0 hd1 he0 he1 heq
    have hd := neg_interleave_left_inv ref (mx + 1) d h0 hb hd0 (by omega)
    have he := neg_interleave_left_inv ref (mx + 1) e h0 hb he0 (by omega)
    rw [heq] at hd
    omega
  · intro s hs0 hs1
    refine ⟨neg_interleave s ref (mx + 1), ?_, ?_, ?_⟩
    · exact (neg_interleave_mem ref (mx + 1) s h0 hb hs0 (by omega)).1
    · have := neg_interleave_mem ref (mx + 1) s h0 hb hs0 (by omega)
      omega
    · exact neg_interleave_right_inv ref (mx + 1) s h0 hb hs0 (by omega)

/-- Witness for C2's amended theorem at a concrete input: `ref = 1, max = 2`
with the call-site parametrisation `max + 1 = 3`. -/

theorem neg_deinterleave_perm_witness :
    (0 : Int) ≤ 1 ∧ (1 : Int) ≤ 2 ∧
    (∃ d, 0 ≤ d ∧ d ≤ 2 ∧ av1_neg_deinterleave d 1 3 = 2) := by
  refine ⟨by norm_num, by norm_num,
    ((neg_deinterleave_perm 1 2 (by norm_num) (by norm_num)).2.2 2
      (by norm_num) (by norm_num))⟩

theorem bitsToNat_foldl_init (l : List Bool) (a : Nat) :
    l.foldl (fun acc b => 2 * acc + (if b then 1 else 0)) a =
      a * 2 ^ l.length + bitsToNat l := by
  induction l generalizing a with
  | nil => simp [bitsToNat]
  | cons x xs ih =>
    simp only [List.foldl_cons, List.length_cons, bitsToNat]
    rw [ih, ih (2 * 0 + _)]
    ring

theorem bitsToNat_append (xs ys : List Bool) :
    bitsToNat (xs ++ ys) = bitsToNat xs * 2 ^ ys.length + bitsToNat ys := by
  unfold bitsToNat
  rw [List.foldl_append]
  rw [bitsToNat_foldl_init]
  rfl

theorem natToBits_length (k v : Nat) : (natToBits k v).length = k := by
  induction k generalizing v with
  | zero => rfl
  | succ k ih => simp [natToBits, ih]

theorem bitsToNat_natToBits (k v : Nat) : bitsToNat (natToBits k v) = v % 2 ^ k := by
  induction k generalizing v with
  | zero => simp [natToBits, bitsToNat, Nat.mod_one]
  | succ k ih =>
    rw [natToBits, bitsToNat_append, ih]
    have hb : bitsToNat [decide (v % 2 = 1)] = v % 2 := by
      have h2 : v % 2 = 0 ∨ v % 2 = 1 := by omega
      rcases h2 with h | h <;> simp [bitsToNat, h]
    rw [hb]
    simp only [List.length_singleton, pow_one]
    have hsplit : v % 2 ^ (k + 1) = v % 2 + 2 * (v / 2 % 2 ^ k) := by
      rw [pow_succ']
      exact Nat.mod_mul
    omega

theorem bitsToNat_lt (l : List Bool) : bitsToNat l < 2 ^ l.length := by
  induction l using List.reverseRecOn with
  | nil => simp [bitsToNat]
  | append_singleton xs x ih =>
    rw [bitsToNat_append]
    simp only [List.length_append, List.length_singleton]
    have hx : bitsToNat [x] < 2 := by cases x <;> simp [bitsToNat]
    have : 2 ^ (xs.length + 1) = 2 ^ xs.length * 2 := by ring
    rw [this]
    omega

theorem get_bits_natToBits (k v : Nat) (hv : v < 2 ^ k) (rest : List Bool) :
    get_bits k (natToBits k v ++ rest) = (v, rest) := by
  unfold get_bits
  have hl := natToBits_length k v
  rw [List.take_append_of_le_length (by omega), List.drop_append_of_le_length (by omega)]
  simp only [List.length_append, hl]
  rw [List.take_of_length_le (by omega), List.drop_of_length_le (by omega)]
  have : k - (k + rest.length) = 0 := by omega
  rw [this]
  simp only [List.replicate_zero, List.append_nil, List.drop_left']
  rw [bitsToNat_natToBits, Nat.mod_eq_of_lt hv]
  simp

theorem get_bits_fst_lt (n : Nat) (s : List Bool) : (get_bits n s).1 < 2 ^ n := by
  unfold get_bits
  have hlen : (s.take n ++ List.replicate (n - s.length) false).length = n := by
    simp only [List.length_append, List.length_take, List.length_replicate]
    omega
  have := bitsToNat_lt (s.take n ++ List.replicate (n - s.length) false)
  rwa [hlen] at this

theorem log2_bounds (n : Nat) (hn : 1 ≤ n) :
    2 ^ Nat.log2 n ≤ n ∧ n < 2 ^ (Nat.log2 n + 1) := by
  constructor
  · exact Nat.log2_self_le (by omega)
  · exact Nat.lt_log2_self

/-- Claim C8: for every `n ≥ 1` and `0 ≤ v < n`, writing `v` with the
two-step uniform codebook and reading it back with `get_uniform` yields `v`
and leaves the remaining stream untouched; and on any stream whatsoever,
`get_uniform n` returns a value strictly less than `n`. -/

theorem get_uniform_round_trip (n v : Nat) (hn : 1 ≤ n) (hv : v < n) :
    (∀ rest : List Bool, get_uniform n (put_uniform n v ++ rest) = (v, rest)) ∧
    (∀ s : List Bool, (get_uniform n s).1 < n) := by
  have hlow : 2 ^ Nat.log2 n ≤ n := (log2_bounds n hn).1
  have hhigh : n < 2 ^ (Nat.log2 n + 1) := (log2_bounds n hn).2
  have hpow : 2 ^ (Nat.log2 n + 1) = 2 * 2 ^ Nat.log2 n := by ring
  constructor
  · intro rest
    unfold get_uniform put_uniform ulog2
    by_cases hvm : v < 2 ^ (Nat.log2 n + 1) - n
    · rw [if_pos hvm]
      have hvlt : v < 2 ^ Nat.log2 n := by omega
      rw [get_bits_natToBits _ _ hvlt rest]
      rw [if_pos hvm]
    · rw [if_neg hvm]
      have hx_lt : (v + (2 ^ (Nat.log2 n + 1) - n)) / 2 < 2 ^ Nat.log2 n := by
        omega
      have hx_ge : ¬ ((v + (2 ^ (Nat.log2 n + 1) - n)) / 2 <
          2 ^ (Nat.log2 n + 1) - n) := by
        have := Nat.div_add_mod (v + (2 ^ (Nat.log2 n + 1) - n)) 2
        omega
      rw [List.append_assoc, get_bits_natToBits _ _ hx_lt _]
      rw [if_neg hx_ge]
      have hbit : get_bits 1 ([decide ((v + (2 ^ (Nat.log2 n + 1) - n)) % 2 = 1)] ++ rest) =
          ((v + (2 ^ (Nat.log2 n + 1) - n)) % 2, rest) := by
        have h2 : (v + (2 ^ (Nat.log2 n + 1) - n)) % 2 < 2 ^ 1 := by
          simp only [pow_one]
          omega
        have hnb : natToBits 1 ((v + (2 ^ (Nat.log2 n + 1) - n)) % 2) =
            [decide ((v + (2 ^ (Nat.log2 n + 1) - n)) % 2 = 1)] := by
          have hxx : (v + (2 ^ (Nat.log2 n + 1) - n)) % 2 % 2 =
              (v + (2 ^ (Nat.log2 n + 1) - n)) % 2 :=
            Nat.mod_mod_of_dvd _ dvd_rfl
          simp only [natToBits, List.nil_append, hxx]
        rw [← hnb]
        exact get_bits_natToBits 1 _ h2 rest
      rw [hbit]
      simp only [Prod.mk.injEq]
      have := Nat.div_add_mod (v + (2 ^ (Nat.log2 n + 1) - n)) 2
      exact ⟨by omega, by trivial⟩
  · intro s
    unfold get_uniform ulog2
    have hv1 := get_bits_fst_lt (Nat.log2 n) s
    by_cases hc : (get_bits (Nat.log2 n) s).1 < 2 ^ (Nat.log2 n + 1) - n
    · rw [if_pos hc]
      omega
    · rw [if_neg hc]
      have hb := get_bits_fst_lt 1 (get_bits (Nat.log2 n) s).2
      simp only [pow_one] at hb
      simp only []
      omega

theorem read_seg_id_explicit_le (pred last : Nat) (s : List Nat) :
    (read_seg_id_explicit pred last s).1 ≤ last := by
  unfold read_seg_id_explicit
  split_ifs with h
  · exact Nat.zero_le _
  · push_neg at h
    simp only []
    omega

/-- Claim C3: on the explicitly coded segment-id paths of `decode_b`, a
deinterleaved value outside `[0, last_active_segid]` is silently replaced by
0 — no error is signalled, the parse continues — and the stored id is always
in `[0, last_active_segid]`; the preskip path (when the temporal-prediction
flag is absent or decodes to 0) and the postskip path (likewise, on
non-skipped blocks) both store exactly this clamped value. -/

theorem seg_id_explicit_clamped (pred last prev_min : Nat) (s : List Nat)
    (have_prev : Bool) (hs : s ≠ []) :
    ((read_seg_id_explicit pred last s).1 ≤ last) ∧
    (∀ raw : Int,
        raw = av1_neg_deinterleave ((s.headD 0 % NUM_SEGMENTS : Nat) : Int) pred (last + 1) →
        ((raw < 0 ∨ (last : Int) < raw) → (read_seg_id_explicit pred last s).1 = 0) ∧
        ((0 ≤ raw ∧ raw ≤ (last : Int)) → ((read_seg_id_explicit pred last s).1 : Int) = raw)) ∧
    (decode_b_segid_preskip true true true false have_prev prev_min pred last s =
        (some (read_seg_id_explicit pred last s).1, false,
         (read_seg_id_explicit pred last s).2)) ∧
    (s.headD 0 % 2 = 0 →
      decode_b_segid_preskip true true true true have_prev prev_min pred last s =
        (some (read_seg_id_explicit pred last s.tail).1, false,
         (read_seg_id_explicit pred last s.tail).2)) ∧
    (decode_b_segid_postskip true true false false have_prev false prev_min pred last s =
        (some (read_seg_id_explicit pred last s).1, false,
         (read_seg_id_explicit pred last s).2)) ∧
    (s.headD 0 % 2 = 0 →
      decode_b_segid_postskip true true false true have_prev false prev_min pred last s =
        (some (read_seg_id_explicit pred last s.tail).1, false,
         (read_seg_id_explicit pred last s.tail).2)) := by
  refine ⟨read_seg_id_explicit_le pred last s, ?_, ?_, ?_, ?_, ?_⟩
  · intro raw hraw
    constructor
    · intro hout
      unfold read_seg_id_explicit
      rw [if_pos]
      rw [hraw] at hout
      exact hout
    · intro hin
      rw [hraw] at hin ⊢
      unfold read_seg_id_explicit
      rw [if_neg (by omega)]
      simp only []
      omega
  · simp [decode_b_segid_preskip]
  · intro hbit
    rw [List.headD_eq_head?] at hbit
    simp [decode_b_segid_preskip, msac_decode_bool_adapt, hbit]
  · simp [decode_b_segid_postskip]
  · intro hbit
    rw [List.headD_eq_head?] at hbit
    simp [decode_b_segid_postskip, msac_decode_bool_adapt, hbit]

/-- Witness for C3 at a concrete input: `pred = 1`, `last = 1`, stream head
`diff = 2` — the deinterleaved value is `-1` and the stored id is 0. -/

theorem seg_id_explicit_clamped_witness :
    ([2, 4] : List Nat) ≠ [] ∧
    (read_seg_id_explicit 1 1 [2, 4]).1 = 0 ∧
    (decode_b_segid_preskip true true true false false 0 1 1 [2, 4]).1 = some 0 := by
  refine ⟨by decide, ?_, ?_⟩
  · have h := ((seg_id_explicit_clamped 1 1 0 [2, 4] false (by decide)).2.1
      (av1_neg_deinterleave 2 1 2) (by norm_num [NUM_SEGMENTS])).1
    exact h (by decide)
  · have h := (seg_id_explicit_clamped 1 1 0 [2, 4] false (by decide)).2.2.1
    rw [h]
    have h2 := ((seg_id_explicit_clamped 1 1 0 [2, 4] false (by decide)).2.1
      (av1_neg_deinterleave 2 1 2) (by norm_num [NUM_SEGMENTS])).1 (by decide)
    rw [h2]

theorem iclip_mem (v lo hi : Int) (h : lo ≤ hi) :
    lo ≤ iclip v lo hi ∧ iclip v lo hi ≤ hi := by
  unfold iclip
  split_ifs <;> omega

theorem read_delta_lf_loop_mem (res_log2 : Nat) (k i0 : Nat) (lf : Nat → Int)
    (s : List Nat) (hlf : ∀ i, -63 ≤ lf i ∧ lf i ≤ 63) :
    ∀ i, -63 ≤ (read_delta_lf_loop res_log2 i0 k lf s).1 i ∧
         (read_delta_lf_loop res_log2 i0 k lf s).1 i ≤ 63 := by
  induction k generalizing i0 lf s with
  | zero => exact hlf
  | succ k ih =>
    intro i
    unfold read_delta_lf_loop
    refine ih (i0 + 1) _ _ ?_ i
    intro j
    by_cases hj : j = i0
    · simp only [hj, if_pos rfl]
      exact iclip_mem _ _ _ (by norm_num)
    · simp only [if_neg hj]
      exact hlf j

/-- Claim C10 (amended): the running delta state is only mutated by
`decode_b` at a superblock-aligned block origin; whenever the stage performs
the delta-q accumulation (aligned origin, `delta.q.present`, and not a
skipped superblock-sized block) the updated `last_qidx` lies in `[1, 255]`;
in general `last_qidx` stays in `[0, 255]` (it is left at the frame's base
quantiser, which may be 0, when no accumulation happens); and every running
loop-filter delta always stays in `[-63, 63]`. -/

theorem delta_q_lf_state (sb128 q_present lf_present lf_multi layout_mono bs_is_sbmax skip : Bool)
    (q_res_log2 lf_res_log2 bx by_ : Nat) (qidx : Int) (lf : Nat → Int) (s : List Nat) :
    (¬ (bx % (if sb128 then 32 else 16) = 0 ∧ by_ % (if sb128 then 32 else 16) = 0) →
      decode_b_delta_q_lf sb128 q_present lf_present lf_multi layout_mono bs_is_sbmax skip
        q_res_log2 lf_res_log2 bx by_ qidx lf s = (qidx, lf, s)) ∧
    (0 ≤ qidx → qidx ≤ 255 →
      0 ≤ (decode_b_delta_q_lf sb128 q_present lf_present lf_multi layout_mono bs_is_sbmax skip
            q_res_log2 lf_res_log2 bx by_ qidx lf s).1 ∧
      (decode_b_delta_q_lf sb128 q_present lf_present lf_multi layout_mono bs_is_sbmax skip
            q_res_log2 lf_res_log2 bx by_ qidx lf s).1 ≤ 255) ∧
    ((bx % (if sb128 then 32 else 16) = 0 ∧ by_ % (if sb128 then 32 else 16) = 0) →
      (q_present ∧ (¬bs_is_sbmax ∨ ¬skip)) →
      1 ≤ (decode_b_delta_q_lf sb128 q_present lf_present lf_multi layout_mono bs_is_sbmax skip
            q_res_log2 lf_res_log2 bx by_ qidx lf s).1 ∧
      (decode_b_delta_q_lf sb128 q_present lf_present lf_multi layout_mono bs_is_sbmax skip
            q_res_log2 lf_res_log2 bx by_ qidx lf s).1 ≤ 255) ∧
    ((∀ i, -63 ≤ lf i ∧ lf i ≤ 63) → ∀ i,
      -63 ≤ (decode_b_delta_q_lf sb128 q_present lf_present lf_multi layout_mono bs_is_sbmax skip
            q_res_log2 lf_res_log2 bx by_ qidx lf s).2.1 i ∧
      (decode_b_delta_q_lf sb128 q_present lf_present lf_multi layout_mono bs_is_sbmax skip
            q_res_log2 lf_res_log2 bx by_ qidx lf s).2.1 i ≤ 63) := by
  refine ⟨?_, ?_, ?_, ?_⟩
  · intro hmis
    unfold decode_b_delta_q_lf
    rw [if_neg hmis]
  · intro h0 h255
    have hic := iclip_mem (qidx + (read_delta_signed q_res_log2 s).1) 1 255 (by norm_num)
    unfold decode_b_delta_q_lf
    split_ifs <;> dsimp only <;> omega
  · intro hal hq
    have hic := iclip_mem (qidx + (read_delta_signed q_res_log2 s).1) 1 255 (by norm_num)
    unfold decode_b_delta_q_lf
    rw [if_pos hal, if_pos hq]
    split_ifs <;> dsimp only <;> omega
  · intro hlf i
    unfold decode_b_delta_q_lf
    split_ifs <;> dsimp only <;>
      first
        | exact read_delta_lf_loop_mem _ _ _ _ _ hlf i
        | exact hlf i

/-- Claim C10 (counterexample to the claim as frozen): with delta-q absent
and a frame base quantiser of 0, a block parse at a superblock origin leaves
`last_qidx = 0`, outside the claimed `[1, 255]`. -/

theorem delta_q_lf_counterexample :
    (decode_b_delta_q_lf false false false false false false false 0 0 0 0 0
        (fun _ => 0) []).1 = 0 ∧
    ¬ (1 ≤ (decode_b_delta_q_lf false false false false false false false 0 0 0 0 0
        (fun _ => 0) []).1) := by
  constructor <;> simp [decode_b_delta_q_lf]

/-- Witness for C10's amended theorem at a concrete input. -/

theorem delta_q_lf_state_witness :
    ¬ ((5 : Nat) % 16 = 0 ∧ (0 : Nat) % 16 = 0) ∧
    decode_b_delta_q_lf false true false false false false false 0 0 5 0 7
        (fun _ => 0) [9] = (7, (fun _ => 0), [9]) := by
  constructor
  · decide
  · exact (delta_q_lf_state false true false false false false false 0 0 5 0 7
      (fun _ => 0) [9]).1 (by decide)

theorem cache_push_mem (acc : List Nat) (x y : Nat) (hy : y ∈ cache_push acc x) :
    y ∈ acc ∨ y = x := by
  unfold cache_push at hy
  split_ifs at hy with h
  · exact Or.inl hy
  · rcases List.mem_append.mp hy with h1 | h1
    · exact Or.inl h1
    · exact Or.inr (List.mem_singleton.mp h1)

theorem pairwise_lt_le_getLast (l : List Nat) (hp : l.Pairwise (· < ·))
    (b : Nat) (hb : b ∈ l) (g : Nat) (hg : l.getLast? = some g) : b ≤ g := by
  induction l with
  | nil => simp at hb
  | cons a l ih =>
    rw [List.pairwise_cons] at hp
    match l with
    | [] =>
      simp only [List.getLast?_singleton, Option.some.injEq] at hg
      rcases List.mem_singleton.mp hb with rfl
      omega
    | c :: l2 =>
      rw [List.getLast?_cons_cons] at hg
      rcases List.mem_cons.mp hb with rfl | hbl
      · have hgmem : g ∈ c :: l2 := List.mem_of_mem_getLast? hg
        have := hp.1 g hgmem
        omega
      · exact ih hp.2 hbl hg

theorem cache_push_pairwise (acc : List Nat) (x : Nat)
    (hp : acc.Pairwise (· < ·)) (hle : ∀ b ∈ acc, b ≤ x) :
    (cache_push acc x).Pairwise (· < ·) := by
  unfold cache_push
  split_ifs with h
  · exact hp
  · rw [List.pairwise_append]
    refine ⟨hp, by simp, ?_⟩
    intro b hb y hy
    rw [List.mem_singleton.mp hy]
    have hne : acc ≠ [] := List.ne_nil_of_mem hb
    have hsome : acc.getLast?.isSome := List.getLast?_isSome.mpr hne
    obtain ⟨g, hg⟩ := Option.isSome_iff_exists.mp hsome
    have hbg := pairwise_lt_le_getLast acc hp b hb g hg
    have hgx := hle g (List.mem_of_mem_getLast? hg)
    have hgne : g ≠ x := fun hq => h (by rw [hg, hq])
    omega

theorem fill_cache_pairwise : ∀ (ls as_ acc : List Nat),
    ls.Pairwise (· ≤ ·) → as_.Pairwise (· ≤ ·) → acc.Pairwise (· < ·) →
    (∀ b ∈ acc, ∀ x ∈ ls, b ≤ x) → (∀ b ∈ acc, ∀ x ∈ as_, b ≤ x) →
    (fill_cache ls as_ acc).Pairwise (· < ·) := by
  intro ls as_ acc
  induction ls, as_, acc using fill_cache.induct with
  | case1 acc =>
    intro _ _ h3 _ _
    rw [fill_cache]
    exact h3
  | case2 a as_ acc ih =>
    intro hl ha hacc hll hla
    rcases List.pairwise_cons.mp ha with ⟨ha1, ha2⟩
    rw [fill_cache]
    refine ih (by simp) ha2
      (cache_push_pairwise acc a hacc (fun b hb => hla b hb a (List.mem_cons_self a as_)))
      (fun b hb x hx => by simp at hx) ?_
    intro b hb x hx
    rcases cache_push_mem acc a b hb with h1 | h1
    · exact hla b h1 x (List.mem_cons_of_mem a hx)
    · rw [h1]
      exact ha1 x hx
  | case3 l ls acc ih =>
    intro hl ha hacc hll hla
    rcases List.pairwise_cons.mp hl with ⟨hl1, hl2⟩
    rw [fill_cache]
    refine ih hl2 (by simp)
      (cache_push_pairwise acc l hacc (fun b hb => hll b hb l (List.mem_cons_self l ls)))
      ?_ (fun b hb x hx => by simp at hx)
    intro b hb x hx
    rcases cache_push_mem acc l b hb with h1 | h1
    · exact hll b h1 x (List.mem_cons_of_mem l hx)
    · rw [h1]
      exact hl1 x hx
  | case4 l ls a as_ acc hlt ih =>
    intro hl ha hacc hll hla
    rcases List.pairwise_cons.mp hl with ⟨hl1, hl2⟩
    rcases List.pairwise_cons.mp ha with ⟨ha1, ha2⟩
    rw [fill_cache, if_pos hlt]
    refine ih hl2 ha
      (cache_push_pairwise acc l hacc (fun b hb => hll b hb l (List.mem_cons_self l ls)))
      ?_ ?_
    · intro b hb x hx
      rcases cache_push_mem acc l b hb with h1 | h1
      · exact hll b h1 x (List.mem_cons_of_mem l hx)
      · rw [h1]
        exact hl1 x hx
    · intro b hb x hx
      rcases cache_push_mem acc l b hb with h1 | h1
      · exact hla b h1 x hx
      · rw [h1]
        rcases List.mem_cons.mp hx with rfl | h2
        · omega
        · have := ha1 x h2
          omega
  | case5 ls a as_ acc hlt ih =>
    intro hl ha hacc hll hla
    rcases List.pairwise_cons.mp hl with ⟨hl1, hl2⟩
    rcases List.pairwise_cons.mp ha with ⟨ha1, ha2⟩
    rw [fill_cache, if_neg hlt, if_pos rfl]
    refine ih hl2 ha2
      (cache_push_pairwise acc a hacc (fun b hb => hla b hb a (List.mem_cons_self a as_)))
      ?_ ?_
    · intro b hb x hx
      rcases cache_push_mem acc a b hb with h1 | h1
      · exact hll b h1 x (List.mem_cons_of_mem a hx)
      · rw [h1]
        exact hl1 x hx
    · intro b hb x hx
      rcases cache_push_mem acc a b hb with h1 | h1
      · exact hla b h1 x (List.mem_cons_of_mem a hx)
      · rw [h1]
        exact ha1 x hx
  | case6 l ls a as_ acc hlt hne ih =>
    intro hl ha hacc hll hla
    rcases List.pairwise_cons.mp hl with ⟨hl1, hl2⟩
    rcases List.pairwise_cons.mp ha with ⟨ha1, ha2⟩
    rw [fill_cache, if_neg hlt, if_neg hne]
    refine ih hl ha2
      (cache_push_pairwise acc a hacc (fun b hb => hla b hb a (List.mem_cons_self a as_)))
      ?_ ?_
    · intro b hb x hx
      rcases cache_push_mem acc a b hb with h1 | h1
      · exact hll b h1 x hx
      · rw [h1]
        rcases List.mem_cons.mp hx with rfl | h2
        · omega
        · have := hl1 x h2
          omega
    · intro b hb x hx
      rcases cache_push_mem acc a b hb with h1 | h1
      · exact hla b h1 x (List.mem_cons_of_mem a hx)
      · rw [h1]
        exact ha1 x hx

theorem select_used_sublist (c : List Nat) : ∀ (k : Nat) (s : List Nat),
    (select_used c k s).1.Sublist c := by
  induction c with
  | nil =>
    intro k s
    simp [select_used]
  | cons a cs ih =>
    intro k s
    match k with
    | 0 =>
      rw [select_used]
      exact List.nil_sublist _
    | k + 1 =>
      rw [select_used]
      split_ifs with h
      · exact List.Sublist.cons₂ a (ih k _)
      · exact List.Sublist.cons a (ih (k + 1) _)

theorem read_new_entries_props (plext mx : Nat) : ∀ (k bits prev : Nat) (s : List Nat),
    prev ≤ mx →
    (∀ y ∈ (read_new_entries plext mx k bits prev s).1, prev ≤ y ∧ y ≤ mx) ∧
    (read_new_entries plext mx k bits prev s).1.Pairwise (· ≤ ·) := by
  intro k
  induction k with
  | zero =>
    intro bits prev s hprev
    rw [read_new_entries]
    simp
  | succ k ih =>
    intro bits prev s hprev
    rw [read_new_entries]
    split_ifs with hsat
    · constructor
      · intro y hy
        rcases List.mem_cons.mp hy with h1 | h1
        · omega
        · have := List.eq_of_mem_replicate h1
          omega
      · rw [List.pairwise_cons]
        constructor
        · intro y hy
          have := List.eq_of_mem_replicate hy
          omega
        · exact List.pairwise_replicate.mpr (Or.inr (le_refl _))
    · have hrec := ih
        (min bits (1 + ulog2 (mx - min (prev + (msac_decode_bools s bits).1 + plext) mx - plext)))
        (min (prev + (msac_decode_bools s bits).1 + plext) mx)
        (msac_decode_bools s bits).2
        (by omega)
      constructor
      · intro y hy
        rcases List.mem_cons.mp hy with h1 | h1
        · omega
        · have := hrec.1 y h1
          omega
      · rw [List.pairwise_cons]
        refine ⟨fun y hy => ?_, hrec.2⟩
        have := hrec.1 y hy
        omega

theorem new_entries_cons_pairwise (plext mx k bits prev : Nat) (s : List Nat)
    (hprev : prev ≤ mx) :
    (prev :: (read_new_entries plext mx k bits prev s).1).Pairwise (· ≤ ·) := by
  rw [List.pairwise_cons]
  have h := read_new_entries_props plext mx k bits prev s hprev
  exact ⟨fun y hy => (h.1 y hy).1, h.2⟩

theorem pal_merge_mem (ns ms : List Nat) :
    ∀ y ∈ pal_merge ns ms, y ∈ ns ∨ y ∈ ms := by
  induction ns, ms using pal_merge.induct with
  | case1 ms =>
    intro y hy
    rw [pal_merge] at hy
    exact Or.inr hy
  | case2 n ns ih =>
    intro y hy
    rw [pal_merge] at hy
    rcases List.mem_cons.mp hy with h1 | h1
    · exact Or.inl (by simp [h1])
    · rcases ih y h1 with h2 | h2
      · exact Or.inl (List.mem_cons_of_mem n h2)
      · simp at h2
  | case3 n ns m ms hle ih =>
    intro y hy
    rw [pal_merge, if_pos hle] at hy
    rcases List.mem_cons.mp hy with h1 | h1
    · exact Or.inl (by simp [h1])
    · rcases ih y h1 with h2 | h2
      · exact Or.inl (List.mem_cons_of_mem n h2)
      · exact Or.inr h2
  | case4 n ns m ms hle ih =>
    intro y hy
    rw [pal_merge, if_neg hle] at hy
    rcases List.mem_cons.mp hy with h1 | h1
    · exact Or.inr (by simp [h1])
    · rcases ih y h1 with h2 | h2
      · exact Or.inl h2
      · exact Or.inr (List.mem_cons_of_mem m h2)

theorem pal_merge_pairwise (ns ms : List Nat)
    (hn : ns.Pairwise (· ≤ ·)) (hm : ms.Pairwise (· ≤ ·)) :
    (pal_merge ns ms).Pairwise (· ≤ ·) := by
  induction ns, ms using pal_merge.induct with
  | case1 ms =>
    rw [pal_merge]
    exact hm
  | case2 n ns ih =>
    rw [pal_merge]
    rw [List.pairwise_cons] at hn
    rw [List.pairwise_cons]
    refine ⟨fun y hy => ?_, ih hn.2 hm⟩
    rcases pal_merge_mem ns [] y hy with h1 | h1
    · exact hn.1 y h1
    · simp at h1
  | case3 n ns m ms hle ih =>
    rw [pal_merge, if_pos hle]
    rw [List.pairwise_cons] at hn
    rw [List.pairwise_cons]
    refine ⟨fun y hy => ?_, ih hn.2 hm⟩
    rcases pal_merge_mem ns (m :: ms) y hy with h1 | h1
    · exact hn.1 y h1
    · rcases List.mem_cons.mp h1 with h2 | h2
      · omega
      · rw [List.pairwise_cons] at hm
        have := hm.1 y h2
        omega
  | case4 n ns m ms hle ih =>
    rw [pal_merge, if_neg hle]
    rw [List.pairwise_cons] at hm
    rw [List.pairwise_cons]
    refine ⟨fun y hy => ?_, ih hn hm.2⟩
    rcases pal_merge_mem (n :: ns) ms y hy with h1 | h1
    · rcases List.mem_cons.mp h1 with h2 | h2
      · omega
      · rw [List.pairwise_cons] at hn
        have h3 := hn.1 y h2
        omega
    · exact hm.1 y h1

/-- Claim C7 (amended): after `read_pal_plane` parses a palette, the recorded
palette size is at least 2, and — provided the cached left/above palettes it
merges are themselves sorted, as every palette this parser produces is — the
palette entries it writes are sorted non-decreasingly.  They need not be
strictly increasing: the new-entry chain saturates at the bit-depth maximum,
repeating the last value, and a reused cache entry can equal a new entry. -/

theorem read_pal_plane_sorted (pl : Bool) (bpc l_sz a_sz : Nat)
    (lpal apal : List Nat) (s : List Nat)
    (hl : (lpal.take l_sz).Pairwise (· ≤ ·)) (ha : (apal.take a_sz).Pairwise (· ≤ ·)) :
    2 ≤ (read_pal_plane pl bpc l_sz a_sz lpal apal s).1 ∧
    (read_pal_plane pl bpc l_sz a_sz lpal apal s).2.1.Pairwise (· ≤ ·) := by
  have hcache : (fill_cache (lpal.take l_sz) (apal.take a_sz) []).Pairwise (· < ·) :=
    fill_cache_pairwise _ _ [] hl ha (by simp) (by simp) (by simp)
  have hused : ∀ k s0,
      (select_used (fill_cache (lpal.take l_sz) (apal.take a_sz) []) k s0).1.Pairwise (· ≤ ·) := by
    intro k s0
    have hsub := select_used_sublist (fill_cache (lpal.take l_sz) (apal.take a_sz) []) k s0
    exact (hcache.sublist hsub).imp (fun h => Nat.le_of_lt h)
  have hfirst : ∀ s2 : List Nat, (msac_decode_bools s2 bpc).1 ≤ 2 ^ bpc - 1 := by
    intro s2
    unfold msac_decode_bools
    have := Nat.mod_lt (s2.headD 0) (Nat.two_pow_pos bpc)
    omega
  simp only [read_pal_plane]
  split_ifs with h1 h2 h3
  · constructor
    · dsimp only
      omega
    · dsimp only
      apply pal_merge_pairwise
      · exact hused _ _
      · rw [List.pairwise_cons]
        constructor
        · intro y hy
          exact ((read_new_entries_props _ _ _ _ _ _ (hfirst _)).1 y hy).1
        · exact (read_new_entries_props _ _ _ _ _ _ (hfirst _)).2
  · constructor
    · dsimp only
      omega
    · dsimp only
      apply pal_merge_pairwise
      · exact hused _ _
      · rw [List.pairwise_cons]
        constructor
        · intro y hy
          exact ((read_new_entries_props _ _ _ _ _ _ (hfirst _)).1 y hy).1
        · exact (read_new_entries_props _ _ _ _ _ _ (hfirst _)).2
  · constructor
    · dsimp only
      omega
    · dsimp only
      apply pal_merge_pairwise
      · exact hused _ _
      · simp
  · exact ⟨by dsimp only; omega, hused _ _⟩

/-- Claim C7 (counterexample to strict increase as frozen): a luma palette of
size 2 whose first entry is the bit-depth maximum 255 saturates, and the
parser writes the palette `[255, 255]`, which is not strictly increasing. -/

theorem read_pal_plane_eval :
    read_pal_plane false 8 0 0 [] [] [0, 255, 0, 0] = (2, [255, 255], []) := by
  have hc : fill_cache [] [] [] = [] := by rw [fill_cache]
  simp [read_pal_plane, msac_decode_symbol_adapt, msac_decode_bools, msac_decode_bool,
    hc, select_used, read_new_entries]
  norm_num [pal_merge]

theorem read_pal_plane_not_strict :
    (read_pal_plane false 8 0 0 [] [] [0, 255, 0, 0]).1 = 2 ∧
    (read_pal_plane false 8 0 0 [] [] [0, 255, 0, 0]).2.1 = [255, 255] ∧
    ¬ (read_pal_plane false 8 0 0 [] [] [0, 255, 0, 0]).2.1.Pairwise (· < ·) := by
  rw [read_pal_plane_eval]
  refine ⟨rfl, rfl, by decide⟩

/-- Witness for C7's amended theorem at a concrete input (no cached
palettes, stream as in the counterexample). -/

theorem read_pal_plane_sorted_witness :
    (([] : List Nat).take 0).Pairwise (· ≤ ·) ∧
    2 ≤ (read_pal_plane false 8 0 0 [] [] [0, 255, 0, 0]).1 ∧
    (read_pal_plane false 8 0 0 [] [] [0, 255, 0, 0]).2.1.Pairwise (· ≤ ·) := by
  refine ⟨by simp, ?_, ?_⟩
  · exact (read_pal_plane_sorted false 8 0 0 [] [] [0, 255, 0, 0] (by simp) (by simp)).1
  · exact (read_pal_plane_sorted false 8 0 0 [] [] [0, 255, 0, 0] (by simp) (by simp)).2

theorem first_discard_ge (mvd : List Int) (i : Nat) : i ≤ first_discard mvd i :=
  Nat.le_add_right _ _

theorem first_discard_le_length (mvd : List Int) (i : Nat) (h : i ≤ mvd.length) :
    first_discard mvd i ≤ mvd.length := by
  unfold first_discard
  have h2 := @List.findIdx_le_length _ (fun v => decide (v = -1)) (mvd.drop i)
  rw [List.length_drop] at h2
  omega

theorem getD_of_getElem (mvd : List Int) (t : Nat) (h : t < mvd.length) :
    mvd.getD t 0 = mvd[t] := by
  rw [List.getD_eq_getElem?_getD, List.getElem?_eq_getElem h]
  rfl

theorem first_discard_good (mvd : List Int) (i t : Nat) (h1 : i ≤ t)
    (h2 : t < first_discard mvd i) (h3 : t < mvd.length) :
    mvd.getD t 0 ≠ -1 := by
  unfold first_discard at h2
  have hlt : t - i < List.findIdx (fun v => decide (v = -1)) (mvd.drop i) := by omega
  have hn := List.not_of_lt_findIdx hlt
  have hlen : t - i < (mvd.drop i).length := by
    have := @List.findIdx_le_length _ (fun v => decide (v = -1)) (mvd.drop i)
    omega
  have hel : (mvd.drop i)[t - i] = mvd[t] := by
    have := List.getElem?_drop mvd i (t - i)
    rw [List.getElem?_eq_getElem hlen, List.getElem?_eq_getElem (by omega : i + (t - i) < mvd.length)] at this
    have heq : i + (t - i) = t := by omega
    simp only [heq] at this
    exact Option.some.inj this
  rw [getD_of_getElem mvd t h3, ← hel]
  simpa using hn

theorem first_discard_bad (mvd : List Int) (i : Nat)
    (h : first_discard mvd i < mvd.length) :
    mvd.getD (first_discard mvd i) 0 = -1 := by
  have hfd : first_discard mvd i = i + List.findIdx (fun v => decide (v = -1)) (mvd.drop i) := rfl
  rw [hfd] at h ⊢
  have hlen : List.findIdx (fun v => decide (v = -1)) (mvd.drop i) < (mvd.drop i).length := by
    rw [List.length_drop]
    omega
  have hp := @List.findIdx_getElem _ _ _ hlen
  have h5 := List.getElem?_drop mvd i (List.findIdx (fun v => decide (v = -1)) (mvd.drop i))
  rw [List.getElem?_eq_getElem hlen, List.getElem?_eq_getElem h] at h5
  rw [getD_of_getElem mvd _ h, ← Option.some.inj h5]
  simpa using hp

theorem last_keep_some (mvd : List Int) (j : Nat) :
    ∀ j', last_keep mvd j = some j' → j' ≤ j ∧ mvd.getD j' 0 ≠ -1 ∧
      ∀ t, j' < t → t ≤ j → mvd.getD t 0 = -1 := by
  induction j with
  | zero =>
    intro j' hj'
    rw [last_keep] at hj'
    split_ifs at hj' with h
    · cases hj'
      exact ⟨le_refl 0, h, fun t ht1 ht2 => by omega⟩
  | succ j ih =>
    intro j' hj'
    rw [last_keep] at hj'
    split_ifs at hj' with h
    · cases hj'
      exact ⟨le_refl _, h, fun t ht1 ht2 => by omega⟩
    · have := ih j' hj'
      refine ⟨by omega, this.2.1, fun t ht1 ht2 => ?_⟩
      rcases Nat.lt_or_ge t (j + 1) with h2 | h2
      · exact this.2.2 t ht1 (by omega)
      · have : t = j + 1 := by omega
        rw [this]
        by_contra hc
        exact hc (by omega) |>.elim

theorem last_keep_none (mvd : List Int) (j : Nat) :
    last_keep mvd j = none → ∀ t, t ≤ j → mvd.getD t 0 = -1 := by
  induction j with
  | zero =>
    intro hn t ht
    rw [last_keep] at hn
    split_ifs at hn with h
    have : t = 0 := by omega
    rw [this]
    by_contra hc
    exact h hc
  | succ j ih =>
    intro hn t ht
    rw [last_keep] at hn
    split_ifs at hn with h
    rcases Nat.lt_or_ge t (j + 1) with h2 | h2
    · exact ih hn t (by omega)
    · have : t = j + 1 := by omega
      rw [this]
      by_contra hc
      exact h hc

theorem getD_set_ne (mvd : List Int) (n t : Nat) (v : Int) (hne : n ≠ t) :
    (mvd.set n v).getD t 0 = mvd.getD t 0 := by
  rw [List.getD_eq_getElem?_getD, List.getD_eq_getElem?_getD, List.getElem?_set]
  rw [if_neg hne]

theorem getD_set_self (mvd : List Int) (n : Nat) (v : Int) (h : n < mvd.length) :
    (mvd.set n v).getD n 0 = v := by
  rw [List.getD_eq_getElem?_getD, List.getElem?_set, if_pos rfl, if_pos h]
  rfl

theorem goodCnt_split (mvd : List Int) (a m b : Nat) (h1 : a ≤ m) (h2 : m ≤ b) :
    goodCnt mvd a b = goodCnt mvd a m + goodCnt mvd m b := by
  unfold goodCnt
  rw [← List.countP_append]
  congr 1
  have h3 := List.range'_append a (m - a) (b - m) 1
  have h4 : a + 1 * (m - a) = m := by omega
  have h5 : b - m + (m - a) = b - a := by omega
  rw [h4, h5] at h3
  exact h3.symm

theorem goodCnt_le (mvd : List Int) (a b : Nat) : goodCnt mvd a b ≤ b - a := by
  unfold goodCnt
  have := @List.countP_le_length _ (fun t => decide (mvd.getD t 0 ≠ -1))
    (List.range' a (b - a))
  rwa [List.length_range'] at this

theorem goodCnt_one (mvd : List Int) (t : Nat) :
    goodCnt mvd t (t + 1) = if mvd.getD t 0 ≠ -1 then 1 else 0 := by
  have h2 : List.range' t (t + 1 - t) = [t] := by
    have h : t + 1 - t = 1 := by omega
    rw [h]
    simp [List.range']
  unfold goodCnt
  rw [h2]
  by_cases hg : mvd.getD t 0 ≠ -1 <;> simp [List.countP_cons, hg]

theorem goodCnt_zero_of_bad (mvd : List Int) (a b : Nat)
    (h : ∀ t, a ≤ t → t < b → mvd.getD t 0 = -1) : goodCnt mvd a b = 0 := by
  unfold goodCnt
  rw [List.countP_eq_zero]
  intro t ht
  rw [List.mem_range'_1] at ht
  simp only [decide_eq_true_eq, Decidable.not_not]
  exact h t ht.1 (by omega)

theorem goodCnt_full_of_good (mvd : List Int) (a b : Nat)
    (h : ∀ t, a ≤ t → t < b → mvd.getD t 0 ≠ -1) : goodCnt mvd a b = b - a := by
  unfold goodCnt
  have := @List.countP_eq_length _ (List.range' a (b - a))
    (fun t => decide (mvd.getD t 0 ≠ -1))
  rw [List.length_range'] at this
  rw [this.mpr]
  intro t ht
  rw [List.mem_range'_1] at ht
  simp only [decide_eq_true_eq]
  exact h t ht.1 (by omega)

theorem goodCnt_set_outside (mvd : List Int) (n : Nat) (v : Int) (a b : Nat)
    (h : n < a ∨ b ≤ n) : goodCnt (mvd.set n v) a b = goodCnt mvd a b := by
  unfold goodCnt
  apply List.countP_congr
  intro t ht
  rw [List.mem_range'_1] at ht
  have : n ≠ t := by omega
  rw [getD_set_ne mvd n t v this]

theorem badTotal_set (mvd : List Int) (n : Nat) (v : Int) (hn : n < mvd.length)
    (hold : mvd.getD n 0 = -1) (hnew : v ≠ -1) :
    badTotal (mvd.set n v) + 1 = badTotal mvd := by
  unfold badTotal
  rw [List.set_eq_take_append_cons_drop, if_pos hn]
  conv_rhs => rw [← List.take_append_drop n mvd, List.drop_eq_getElem_cons hn]
  rw [List.countP_append, List.countP_append, List.countP_cons, List.countP_cons]
  rw [getD_of_getElem mvd n hn] at hold
  simp [hold, hnew]
  omega

theorem badTotal_zero_all_good (mvd : List Int) (h : badTotal mvd = 0) :
    ∀ t, t < mvd.length → mvd.getD t 0 ≠ -1 := by
  unfold badTotal at h
  rw [List.countP_eq_zero] at h
  intro t ht
  rw [getD_of_getElem mvd t ht]
  have := h mvd[t] (List.getElem_mem ht)
  simpa using this

/-- Core invariant of the compaction loop: with `R` kept samples in total,
prefix `[0, i)` already kept, `R - i` kept samples left in the window
`[i, j]`, and `r` discarded slots in the whole scratch, the loop ends with
the first `R` slots all holding samples satisfying `Q`, where `Q` holds at
every kept slot. -/

theorem warp_compact_sel (R : Nat) (Q : WarpPt → Prop) :
    ∀ (r i j : Nat) (pts : List WarpPt) (mvd : List Int),
    mvd.length = pts.length →
    badTotal mvd = r →
    j + 1 ≤ mvd.length →
    i ≤ j + 1 →
    goodCnt mvd i (j + 1) + i = R →
    (∀ t, t < i → mvd.getD t 0 ≠ -1) →
    (∀ t, t < mvd.length → mvd.getD t 0 ≠ -1 → Q (pts.getD t default)) →
    (warp_compact r i j pts mvd).1.length = pts.length ∧
    (∀ t, t < R → Q ((warp_compact r i j pts mvd).1.getD t default)) := by
  intro r
  induction r with
  | zero =>
    intro i j pts mvd hlen hbad hj hij hcnt hpre hQ
    rw [warp_compact]
    refine ⟨rfl, fun t ht => ?_⟩
    have hR : R ≤ mvd.length := by
      have := goodCnt_le mvd i (j + 1)
      omega
    exact hQ t (by omega) (badTotal_zero_all_good mvd hbad t (by omega))
  | succ r ih =>
    intro i j pts mvd hlen hbad hj hij hcnt hpre hQ
    rw [warp_compact]
    rcases hlk : last_keep mvd j with _ | j'
    · -- no kept sample at or before j: the window has none, so i = R
      have hall := last_keep_none mvd j hlk
      have h0 : goodCnt mvd i (j + 1) = 0 :=
        goodCnt_zero_of_bad mvd i (j + 1) (fun t ht1 ht2 => hall t (by omega))
      refine ⟨rfl, fun t ht => ?_⟩
      exact hQ t (by omega) (hpre t (by omega))
    · dsimp only
      have hj' := last_keep_some mvd j j' hlk
      by_cases hbr : j' < first_discard mvd i
      · -- scans crossed: the first R slots are already kept
        rw [if_pos hbr]
        refine ⟨rfl, fun t ht => ?_⟩
        -- goods in [i, j+1) all lie below first_discard, so R ≤ first_discard
        have hgsplit : ∀ u, i ≤ u → u < j + 1 → mvd.getD u 0 ≠ -1 →
            u < first_discard mvd i := by
          intro u hu1 hu2 hgu
          by_contra hc
          push_neg at hc
          rcases Nat.lt_or_ge u (j' + 1) with h2 | h2
          · -- u ≤ j' < fd contradicts u ≥ fd
            omega
          · exact hgu (hj'.2.2 u (by omega) (by omega))
        have hcfd : goodCnt mvd i (j + 1) ≤ first_discard mvd i - i := by
          rcases Nat.lt_or_ge (first_discard mvd i) (j + 1) with hfj | hfj
          · rw [goodCnt_split mvd i (first_discard mvd i) (j + 1)
              (first_discard_ge mvd i) (by omega)]
            have h2 : goodCnt mvd (first_discard mvd i) (j + 1) = 0 := by
              apply goodCnt_zero_of_bad
              intro t ht1 ht2
              by_contra hc
              have := hgsplit t (by have := first_discard_ge mvd i; omega) ht2 hc
              omega
            have := goodCnt_le mvd i (first_discard mvd i)
            omega
          · have := goodCnt_le mvd i (j + 1)
            omega
        have hige2 : i ≤ first_discard mvd i := first_discard_ge mvd i
        have hRfd : R ≤ first_discard mvd i := by omega
        have hfdle : first_discard mvd i ≤ mvd.length :=
          first_discard_le_length mvd i (by omega)
        have hfdgood : ∀ t, t < first_discard mvd i → t < mvd.length → mvd.getD t 0 ≠ -1 := by
          intro t ht htl
          rcases Nat.lt_or_ge t i with h2 | h2
          · exact hpre t h2
          · exact first_discard_good mvd i t h2 ht htl
        refine hQ t (by omega) (hfdgood t (by omega) (by omega))
      · rw [if_neg hbr]
        push_neg at hbr
        -- fd ≤ j' ≤ j < length; fd is discarded, j' kept, so fd < j'
        have hfdlen : first_discard mvd i < mvd.length := by omega
        have hfdbad := first_discard_bad mvd i hfdlen
        have hfdne : first_discard mvd i ≠ j' := by
          intro hc
          rw [hc] at hfdbad
          exact hj'.2.1 hfdbad
        have hfdlt : first_discard mvd i < j' := by omega
        have hige : i ≤ first_discard mvd i := first_discard_ge mvd i
        -- window arithmetic: R - i = (fd - i) + 1 + goodCnt (fd+1) j'
        have hsplit1 : goodCnt mvd i (j + 1) =
            goodCnt mvd i (first_discard mvd i) +
            goodCnt mvd (first_discard mvd i) (first_discard mvd i + 1) +
            goodCnt mvd (first_discard mvd i + 1) j' +
            goodCnt mvd j' (j' + 1) +
            goodCnt mvd (j' + 1) (j + 1) := by
          rw [goodCnt_split mvd i (first_discard mvd i) (j + 1) hige (by omega),
              goodCnt_split mvd (first_discard mvd i) (first_discard mvd i + 1) (j + 1)
                (by omega) (by omega),
              goodCnt_split mvd (first_discard mvd i + 1) j' (j + 1) (by omega) (by omega),
              goodCnt_split mvd j' (j' + 1) (j + 1) (by omega) (by omega)]
          omega
        have hg1 : goodCnt mvd i (first_discard mvd i) = first_discard mvd i - i :=
          goodCnt_full_of_good mvd _ _ (fun t ht1 ht2 =>
            first_discard_good mvd i t ht1 ht2 (by omega))
        have hg2 : goodCnt mvd (first_discard mvd i) (first_discard mvd i + 1) = 0 :=
          goodCnt_zero_of_bad mvd _ _ (fun t ht1 ht2 => by
            have : t = first_discard mvd i := by omega
            rw [this]
            exact hfdbad)
        have hg4 : goodCnt mvd j' (j' + 1) = 1 := by
          rw [goodCnt_one]
          rw [if_pos hj'.2.1]
        have hg5 : goodCnt mvd (j' + 1) (j + 1) = 0 :=
          goodCnt_zero_of_bad mvd _ _ (fun t ht1 ht2 => hj'.2.2 t (by omega) (by omega))
        -- apply the induction hypothesis to the updated state
        have hlen' : (mvd.set (first_discard mvd i) (mvd.getD j' 0)).length =
            (pts.set (first_discard mvd i) (pts.getD j' default)).length := by
          rw [List.length_set, List.length_set]
          exact hlen
        have hkeepval : mvd.getD j' 0 ≠ -1 := hj'.2.1
        refine (ih (first_discard mvd i + 1) (j' - 1) _ _ hlen' ?_ ?_ ?_ ?_ ?_ ?_).imp ?_ ?_
        · -- badTotal decreased by one
          have := badTotal_set mvd (first_discard mvd i) (mvd.getD j' 0) hfdlen hfdbad hkeepval
          omega
        · rw [List.length_set]
          omega
        · omega
        · -- new window count: goodCnt (fd+1) ((j'-1)+1 = j') = R - fd - 1
          have hout : goodCnt (mvd.set (first_discard mvd i) (mvd.getD j' 0))
              (first_discard mvd i + 1) (j' - 1 + 1) =
              goodCnt mvd (first_discard mvd i + 1) j' := by
            have h6 : j' - 1 + 1 = j' := by omega
            rw [h6]
            exact goodCnt_set_outside mvd _ _ _ _ (Or.inl (by omega))
          rw [hout]
          omega
        · -- prefix of the new i is all kept
          intro t ht
          rcases Nat.lt_or_ge t (first_discard mvd i) with h2 | h2
          · rw [getD_set_ne mvd _ _ _ (by omega)]
            rcases Nat.lt_or_ge t i with h3 | h3
            · exact hpre t h3
            · exact first_discard_good mvd i t h3 h2 (by omega)
          · have : t = first_discard mvd i := by omega
            rw [this, getD_set_self mvd _ _ hfdlen]
            exact hkeepval
        · -- Q holds at every kept slot of the updated lists
          intro t htl hgt
          rw [List.length_set] at htl
          rcases Nat.lt_or_ge t (first_discard mvd i) with h2 | h2
          · rw [getD_set_ne mvd _ _ _ (by omega)] at hgt
            rw [List.getD_eq_getElem?_getD, List.getElem?_set, if_neg (by omega),
                ← List.getD_eq_getElem?_getD]
            exact hQ t htl hgt
          · rcases Nat.lt_or_ge (first_discard mvd i) t with h3 | h3
            · rw [getD_set_ne mvd _ _ _ (by omega)] at hgt
              rw [List.getD_eq_getElem?_getD, List.getElem?_set, if_neg (by omega),
                  ← List.getD_eq_getElem?_getD]
              exact hQ t htl hgt
            · have hteq : t = first_discard mvd i := by omega
              rw [hteq, List.getD_eq_getElem?_getD, List.getElem?_set, if_pos rfl,
                  if_pos (by rw [hlen] at hfdlen; exact hfdlen)]
              have hQ' := hQ j' (by omega) hkeepval
              simpa using hQ'
        · intro h7
          rw [List.length_set] at h7
          rw [h7]
        · intro h7
          exact h7

theorem getD_eq_getElem {α : Type} (l : List α) (d : α) (t : Nat) (h : t < l.length) :
    l.getD t d = l[t] := by
  rw [List.getD_eq_getElem?_getD, List.getElem?_eq_getElem h]
  rfl

theorem goodCnt_shift (v : Int) (rest : List Int) (a b : Nat) :
    goodCnt (v :: rest) (a + 1) (b + 1) = goodCnt rest a b := by
  unfold goodCnt
  have h : b + 1 - (a + 1) = b - a := by omega
  rw [h, List.range'_eq_map_range, List.range'_eq_map_range,
      List.countP_map, List.countP_map]
  apply List.countP_congr
  intro x hx
  simp only [Function.comp_apply]
  have h2 : a + 1 + x = (a + x) + 1 := by omega
  rw [h2, List.getD_cons_succ]

theorem goodCnt_whole (mvd : List Int) :
    goodCnt mvd 0 mvd.length = mvd.countP (fun v => decide (v ≠ -1)) := by
  induction mvd with
  | nil => simp [goodCnt]
  | cons v rest ih =>
    rw [List.length_cons, List.countP_cons]
    rw [goodCnt_split (v :: rest) 0 1 (rest.length + 1) (by omega) (by omega)]
    have h1 : goodCnt (v :: rest) 0 1 = if v ≠ -1 then 1 else 0 := by
      have := goodCnt_one (v :: rest) 0
      simpa [List.getD_cons_zero] using this
    have h2 : goodCnt (v :: rest) 1 (rest.length + 1) = goodCnt rest 0 rest.length := by
      exact goodCnt_shift v rest 0 rest.length
    rw [h1, h2, ih]
    by_cases h : v ≠ -1
    · simp [h]
      omega
    · simp [h]

theorem warp_mvd_nonneg (mvx mvy : Int) (p : WarpPt) : 0 ≤ warp_mvd mvx mvy p := by
  unfold warp_mvd
  have := abs_nonneg (p.outx - p.inx - mvx)
  have := abs_nonneg (p.outy - p.iny - mvy)
  omega

theorem warp_ret0_eq (mvx mvy thresh : Int) (pts : List WarpPt) :
    (warp_mvd_list mvx mvy thresh pts).countP (fun v => decide (v ≠ -1)) =
    pts.countP (fun p => decide (warp_mvd mvx mvy p ≤ thresh)) := by
  unfold warp_mvd_list
  rw [List.countP_map]
  apply List.countP_congr
  intro p hp
  simp only [Function.comp_apply, decide_eq_true_eq]
  have h0 := warp_mvd_nonneg mvx mvy p
  by_cases h : warp_mvd mvx mvy p > thresh
  · rw [if_pos h]
    constructor
    · intro hc
      exact absurd rfl hc
    · intro hc
      omega
  · rw [if_neg h]
    constructor
    · intro _
      omega
    · intro _
      omega

theorem warp_mvd_list_length (mvx mvy thresh : Int) (pts : List WarpPt) :
    (warp_mvd_list mvx mvy thresh pts).length = pts.length := by
  unfold warp_mvd_list
  exact List.length_map _ _

theorem warp_badTotal (mvx mvy thresh : Int) (pts : List WarpPt) :
    badTotal (warp_mvd_list mvx mvy thresh pts) =
      pts.length - pts.countP (fun p => decide (warp_mvd mvx mvy p ≤ thresh)) := by
  have h1 := List.length_eq_countP_add_countP (fun v => decide (v ≠ -1))
    (warp_mvd_list mvx mvy thresh pts)
  have h2 : (warp_mvd_list mvx mvy thresh pts).countP
      (fun a => decide ¬(decide (a ≠ -1)) = true) = badTotal (warp_mvd_list mvx mvy thresh pts) := by
    unfold badTotal
    apply List.countP_congr
    intro v hv
    simp
  rw [warp_mvd_list_length] at h1
  rw [warp_ret0_eq] at h1
  omega

theorem warp_mvd_list_good_iff (mvx mvy thresh : Int) (pts : List WarpPt) (t : Nat)
    (ht : t < pts.length) :
    ((warp_mvd_list mvx mvy thresh pts).getD t 0 ≠ -1 ↔
      warp_mvd mvx mvy (pts.getD t default) ≤ thresh) := by
  have hmap : (warp_mvd_list mvx mvy thresh pts).getD t 0 =
      (fun p => if warp_mvd mvx mvy p > thresh then (-1 : Int) else warp_mvd mvx mvy p)
        (pts.getD t default) := by
    unfold warp_mvd_list
    rw [getD_eq_getElem _ 0 t (by rw [List.length_map]; exact ht),
        getD_eq_getElem _ default t ht, List.getElem_map]
  rw [hmap]
  simp only []
  have h0 := warp_mvd_nonneg mvx mvy (pts.getD t default)
  by_cases h : warp_mvd mvx mvy (pts.getD t default) > thresh
  · rw [if_pos h]
    constructor
    · intro hc
      exact absurd rfl hc
    · intro hc
      omega
  · rw [if_neg h]
    constructor
    · intro _
      omega
    · intro hc
      omega

/-- Claim C5: `derive_warpmv` keeps exactly the candidate sample pairs whose
per-sample MV difference from the block MV is `≤ 4 * iclip(max(bw4, bh4), 4,
28)` — the returned `ret` is their number and each of the first `ret`
compacted slots holds a qualifying sample drawn from the collected ones —
keeps one sample (the array unchanged, `ret = 1`) if none qualifies, and
sets the warp type to `WM_TYPE_AFFINE` if and only if both
`find_affine_int` and `get_shear_params` return 0, `WM_TYPE_IDENTITY` in
every other case. -/

theorem derive_warpmv_spec {α : Type} (fa : List WarpPt → Nat → α → Int × α)
    (gs : α → Int × α) (bw4 bh4 mvx mvy : Int) (pts : List WarpPt) (wmp : α)
    (hne : pts ≠ []) :
    ((derive_warpmv fa gs bw4 bh4 mvx mvy pts wmp).2.1 =
      if pts.countP (fun p => decide (warp_mvd mvx mvy p ≤ 4 * iclip (max bw4 bh4) 4 28)) = 0
      then 1
      else pts.countP (fun p => decide (warp_mvd mvx mvy p ≤ 4 * iclip (max bw4 bh4) 4 28))) ∧
    (pts.countP (fun p => decide (warp_mvd mvx mvy p ≤ 4 * iclip (max bw4 bh4) 4 28)) = 0 →
      (derive_warpmv fa gs bw4 bh4 mvx mvy pts wmp).1 = pts) ∧
    ((derive_warpmv fa gs bw4 bh4 mvx mvy pts wmp).1.length = pts.length) ∧
    (∀ t, t < pts.countP (fun p => decide (warp_mvd mvx mvy p ≤ 4 * iclip (max bw4 bh4) 4 28)) →
      warp_mvd mvx mvy ((derive_warpmv fa gs bw4 bh4 mvx mvy pts wmp).1.getD t default) ≤
        4 * iclip (max bw4 bh4) 4 28 ∧
      (derive_warpmv fa gs bw4 bh4 mvx mvy pts wmp).1.getD t default ∈ pts) ∧
    ((derive_warpmv fa gs bw4 bh4 mvx mvy pts wmp).2.2.1 = true ↔
      ((fa (derive_warpmv fa gs bw4 bh4 mvx mvy pts wmp).1
          (derive_warpmv fa gs bw4 bh4 mvx mvy pts wmp).2.1 wmp).1 = 0 ∧
       (gs (fa (derive_warpmv fa gs bw4 bh4 mvx mvy pts wmp).1
          (derive_warpmv fa gs bw4 bh4 mvx mvy pts wmp).2.1 wmp).2).1 = 0)) := by
  have hlenpos : 0 < pts.length := List.length_pos.mpr hne
  have hretc := warp_ret0_eq mvx mvy (4 * iclip (max bw4 bh4) 4 28) pts
  have hcomp := warp_compact_sel
    (pts.countP (fun p => decide (warp_mvd mvx mvy p ≤ 4 * iclip (max bw4 bh4) 4 28)))
    (fun p => warp_mvd mvx mvy p ≤ 4 * iclip (max bw4 bh4) 4 28 ∧ p ∈ pts)
    (pts.length - pts.countP (fun p => decide (warp_mvd mvx mvy p ≤ 4 * iclip (max bw4 bh4) 4 28)))
    0 (pts.length - 1) pts (warp_mvd_list mvx mvy (4 * iclip (max bw4 bh4) 4 28) pts)
    (warp_mvd_list_length _ _ _ _)
    (warp_badTotal _ _ _ _)
    (by rw [warp_mvd_list_length]; omega)
    (by omega)
    (by
      rw [show pts.length - 1 + 1 = pts.length from by omega]
      rw [show pts.length = (warp_mvd_list mvx mvy (4 * iclip (max bw4 bh4) 4 28) pts).length
        from (warp_mvd_list_length _ _ _ _).symm]
      rw [goodCnt_whole, hretc]
      omega)
    (fun t ht => absurd ht (by omega))
    (by
      intro t htl hgood
      rw [warp_mvd_list_length] at htl
      exact ⟨(warp_mvd_list_good_iff _ _ _ pts t htl).mp hgood,
        by rw [getD_eq_getElem pts default t htl]; exact List.getElem_mem htl⟩)
  simp only [derive_warpmv]
  rw [hretc]
  set C := pts.countP (fun p => decide (warp_mvd mvx mvy p ≤ 4 * iclip (max bw4 bh4) 4 28))
    with hCdef
  by_cases hC : C = 0
  · simp only [hC, reduceIte]
    split_ifs with h2 h3
    · exact ⟨rfl, fun _ => rfl, rfl, fun t ht => absurd ht (by omega), by simp [h2, h3]⟩
    · exact ⟨rfl, fun _ => rfl, rfl, fun t ht => absurd ht (by omega), by simp [h2, h3]⟩
    · exact ⟨rfl, fun _ => rfl, rfl, fun t ht => absurd ht (by omega), by simp [h2]⟩
  · simp only [if_neg hC]
    split_ifs with h2 h3
    · exact ⟨rfl, fun hc => absurd hc hC, hcomp.1,
        fun t ht => hcomp.2 t ht, by simp [h2, h3]⟩
    · exact ⟨rfl, fun hc => absurd hc hC, hcomp.1,
        fun t ht => hcomp.2 t ht, by simp [h2, h3]⟩
    · exact ⟨rfl, fun hc => absurd hc hC, hcomp.1,
        fun t ht => hcomp.2 t ht, by simp [h2]⟩

/-- Witness for C5 at a concrete input: one sample with zero MV difference,
both solvers succeeding. -/

theorem derive_warpmv_spec_witness :
    ([(⟨0, 0, 0, 0⟩ : WarpPt)] ≠ ([] : List WarpPt)) ∧
    (derive_warpmv (fun _ _ (u : Unit) => ((0 : Int), u)) (fun u => ((0 : Int), u))
        4 4 0 0 [⟨0, 0, 0, 0⟩] ()).1.length = [(⟨0, 0, 0, 0⟩ : WarpPt)].length :=
  ⟨by decide,
   (derive_warpmv_spec (fun _ _ (u : Unit) => ((0 : Int), u)) (fun u => ((0 : Int), u))
      4 4 0 0 [⟨0, 0, 0, 0⟩] () (by decide)).2.2.1⟩

theorem ctxFill_in {β : Type} (g : Nat → β) (off len : Nat) (v : β) (t : Nat)
    (h1 : off ≤ t) (h2 : t < off + len) : ctxFill g off len v t = v := by
  unfold ctxFill
  rw [if_pos ⟨h1, h2⟩]

theorem sb_finish_ok {σ : Type} (wr : Nat → BlockPartition → σ → σ) (p : Bool)
    (bl : Nat) (bp : BlockPartition) (st : WalkSt σ) :
    ∃ st2 : WalkSt σ, sb_finish wr p bl bp (.ok st) = .ok st2 ∧ st2.calls = st.calls ∧
      st2.stream = st.stream := by
  unfold sb_finish
  split_ifs <;> exact ⟨_, rfl, rfl, rfl⟩

theorem decode_sb_forced_split {σ : Type} (wr : Nat → BlockPartition → σ → σ)
    (db : DecBCall → List Nat × σ → List Nat × σ) (f : SbFrame)
    (s0 s1 s2 s3 : EdgeNd) (bl bx by_ : Nat) (st : WalkSt σ)
    (h1 : ¬ (bx + 16 >>> bl < f.bw)) (h2 : ¬ (by_ + 16 >>> bl < f.bh)) (h3 : bl < 4) :
    decode_sb wr db f (.branch s0 s1 s2 s3) bl bx by_ st =
      decode_sb wr db f s0 (bl + 1) bx by_ st := by
  conv_lhs => rw [decode_sb]
  rw [if_pos ⟨h1, h2⟩, if_pos h3]

theorem decode_sb_i422_v_reject {σ : Type} (wr : Nat → BlockPartition → σ → σ)
    (db : DecBCall → List Nat × σ → List Nat × σ) (f : SbFrame)
    (node : EdgeNd) (bl bx by_ : Nat) (st : WalkSt σ)
    (h1 : bx + 16 >>> bl < f.bw) (h2 : by_ + 16 >>> bl < f.bh)
    (hp : f.pass2 = false) (hL : f.layoutI422 = true)
    (hvfam : (sb_part f bl bx by_ st).1 = .V ∨ (sb_part f bl bx by_ st).1 = .V4 ∨
      (sb_part f bl bx by_ st).1 = .T_LEFT_SPLIT ∨
      (sb_part f bl bx by_ st).1 = .T_RIGHT_SPLIT) :
    decode_sb wr db f node bl bx by_ st = .error () := by
  cases node <;>
    (conv_lhs => rw [decode_sb]) <;>
    rw [if_neg (fun hc => hc.1 h1), if_pos ⟨h1, h2⟩, if_pos ⟨by simp [hp], hL, hvfam⟩]

theorem decode_sb_i422_forced_v_reject {σ : Type} (wr : Nat → BlockPartition → σ → σ)
    (db : DecBCall → List Nat × σ → List Nat × σ) (f : SbFrame)
    (node : EdgeNd) (bl bx by_ : Nat) (st : WalkSt σ)
    (h1 : ¬ (bx + 16 >>> bl < f.bw)) (h2 : by_ + 16 >>> bl < f.bh)
    (hp : f.pass2 = false) (hL : f.layoutI422 = true)
    (hsym : (sb_is_split f bl bx by_ st).1 = false) :
    decode_sb wr db f node bl bx by_ st = .error () := by
  cases node <;>
    (conv_lhs => rw [decode_sb]) <;>
    rw [if_neg (fun hc => hc.2 h2), if_neg (fun hc => h1 hc.1), if_neg h1,
        if_pos ⟨by simp [hp], hL, hsym⟩]

theorem v_family_true_iff (p : BlockPartition) :
    v_family p = true ↔
      (p = .V ∨ p = .V4 ∨ p = .T_LEFT_SPLIT ∨ p = .T_RIGHT_SPLIT) := by
  cases p <;> simp [v_family]

theorem sb_part_calls {σ : Type} (f : SbFrame) (bl bx by_ : Nat) (st : WalkSt σ) :
    ((sb_part f bl bx by_ st).2).calls = st.calls := by
  unfold sb_part
  split_ifs <;> rfl

theorem sb_part_ctx {σ : Type} (f : SbFrame) (bl bx by_ : Nat) (st : WalkSt σ) :
    ((sb_part f bl bx by_ st).2).ctx = st.ctx := by
  unfold sb_part
  split_ifs <;> rfl

theorem callB_calls {σ : Type} (db : DecBCall → List Nat × σ → List Nat × σ)
    (bl : Nat) (bp : BlockPartition) (bx by_ : Nat) (st : WalkSt σ) :
    (callB db bl bp bx by_ st).calls = st.calls ++ [⟨bl, bp, bx, by_⟩] := rfl

/-- On any chroma layout other than 4:2:2 the walker never errors: the only
two `return 1` statements of `decode_sb` sit behind the `layout ==
DAV1D_PIXEL_LAYOUT_I422` test. -/

theorem decode_sb_no_i422_ok {σ : Type} (wr : Nat → BlockPartition → σ → σ)
    (db : DecBCall → List Nat × σ → List Nat × σ) (f : SbFrame)
    (hL : f.layoutI422 = false) :
    ∀ (node : EdgeNd) (bl bx by_ : Nat) (st : WalkSt σ),
      ∃ st2, decode_sb wr db f node bl bx by_ st = .ok st2 := by
  intro node
  induction node with
  | tip =>
    intro bl bx by_ st
    rw [decode_sb]
    split_ifs <;>
      first
      | exact ⟨_, rfl⟩
      | exact Exists.imp (fun st2 h => h.1) (sb_finish_ok _ _ _ _ _)
      | simp_all [hL]
  | branch s0 s1 s2 s3 ih0 ih1 ih2 ih3 =>
    intro bl bx by_ st
    rw [decode_sb]
    split_ifs <;>
      first
      | exact ⟨_, rfl⟩
      | exact ih0 _ _ _ _
      | exact Exists.imp (fun st2 h => h.1) (sb_finish_ok _ _ _ _ _)
      | (obtain ⟨t0, h0⟩ := ih0 (bl + 1) bx by_ ((sb_part f bl bx by_ st).2)
         obtain ⟨t1, h1⟩ := ih1 (bl + 1) (bx + 16 >>> bl) by_ t0
         obtain ⟨t2, h2⟩ := ih2 (bl + 1) bx (by_ + 16 >>> bl) t1
         obtain ⟨t3, h3⟩ := ih3 (bl + 1) (bx + 16 >>> bl) (by_ + 16 >>> bl) t2
         simp only [h0, h1, h2, h3]
         exact Exists.imp (fun st2 h => h.1) (sb_finish_ok _ _ _ _ _))
      | (obtain ⟨t0, h0⟩ := ih0 (bl + 1) bx by_ ((sb_is_split f bl bx by_ st).2)
         obtain ⟨t1, h1⟩ := ih1 (bl + 1) (bx + 16 >>> bl) by_ t0
         simp only [h0, h1]
         exact Exists.imp (fun st2 h => h.1) (sb_finish_ok _ _ _ _ _))
      | (obtain ⟨t0, h0⟩ := ih0 (bl + 1) bx by_ ((sb_is_split f bl bx by_ st).2)
         obtain ⟨t2, h2⟩ := ih2 (bl + 1) bx (by_ + 16 >>> bl) t0
         simp only [h0, h2]
         exact Exists.imp (fun st2 h => h.1) (sb_finish_ok _ _ _ _ _))
      | simp_all [hL]

/-- Claim C4: on a 4:2:2 chroma layout, in a parsing pass, `decode_sb`
returns a decode error whenever the partition it settles on at a
both-ways-splittable position is V-family (`PARTITION_V`, `PARTITION_V4`,
`PARTITION_T_LEFT_SPLIT`, `PARTITION_T_RIGHT_SPLIT`), and likewise when a
bottom-edge position is forced to a non-split vertical half-block; the
error is raised before any `decode_b` descends into the blocks.  For every
other layout the walker never fails, and on 4:2:2 a non-V-family terminal
partition does not fail for this reason either. -/

theorem decode_sb_i422_v_family {σ : Type} (wr : Nat → BlockPartition → σ → σ)
    (db : DecBCall → List Nat × σ → List Nat × σ) (f : SbFrame)
    (node : EdgeNd) (bl bx by_ : Nat) (st : WalkSt σ) :
    (f.pass2 = false → f.layoutI422 = true → bx + 16 >>> bl < f.bw →
      by_ + 16 >>> bl < f.bh → v_family (sb_part f bl bx by_ st).1 = true →
      decode_sb wr db f node bl bx by_ st = .error ()) ∧
    (f.pass2 = false → f.layoutI422 = true → ¬(bx + 16 >>> bl < f.bw) →
      by_ + 16 >>> bl < f.bh → (sb_is_split f bl bx by_ st).1 = false →
      decode_sb wr db f node bl bx by_ st = .error ()) ∧
    (f.layoutI422 = false →
      ∃ st2, decode_sb wr db f node bl bx by_ st = .ok st2) ∧
    (bx + 16 >>> bl < f.bw → by_ + 16 >>> bl < f.bh →
      v_family (sb_part f bl bx by_ st).1 = false →
      ¬((sb_part f bl bx by_ st).1 = .SPLIT ∧ bl ≠ 4) →
      ∃ st2, decode_sb wr db f node bl bx by_ st = .ok st2) := by
  refine ⟨?_, ?_, ?_, ?_⟩
  · intro hp hL h1 h2 hv
    exact decode_sb_i422_v_reject wr db f node bl bx by_ st h1 h2 hp hL
      ((v_family_true_iff _).mp hv)
  · intro hp hL h1 h2 hs
    exact decode_sb_i422_forced_v_reject wr db f node bl bx by_ st h1 h2 hp hL hs
  · intro hL
    exact decode_sb_no_i422_ok wr db f hL node bl bx by_ st
  · intro h1 h2 hv hterm
    have hnv : ¬((sb_part f bl bx by_ st).1 = .V ∨ (sb_part f bl bx by_ st).1 = .V4 ∨
        (sb_part f bl bx by_ st).1 = .T_LEFT_SPLIT ∨
        (sb_part f bl bx by_ st).1 = .T_RIGHT_SPLIT) := by
      intro hc
      rw [← v_family_true_iff] at hc
      rw [hv] at hc
      exact absurd hc (by simp)
    cases node with
    | tip =>
      rw [decode_sb, if_neg (fun hc => hc.1 h1), if_pos ⟨h1, h2⟩,
          if_neg (fun hc => hnv hc.2.2), if_neg hterm]
      exact Exists.imp (fun st2 h => h.1) (sb_finish_ok _ _ _ _ _)
    | branch s0 s1 s2 s3 =>
      rw [decode_sb, if_neg (fun hc => hc.1 h1), if_pos ⟨h1, h2⟩,
          if_neg (fun hc => hnv hc.2.2), if_neg hterm]
      exact Exists.imp (fun st2 h => h.1) (sb_finish_ok _ _ _ _ _)

/-- Witness for C4 at `bl = 4` on concrete 2x2 frames: a `PARTITION_V`
symbol at the origin of the 4:2:2 frame errors, a forced vertical
non-split at the right edge errors, and the same inputs succeed on the
non-4:2:2 frame, as does a `PARTITION_NONE` symbol on the 4:2:2 one. -/

theorem decode_sb_i422_v_family_witness :
    decode_sb wrU dbU f422 .tip 4 0 0 ⟨[2], (), []⟩ = .error () ∧
    decode_sb wrU dbU f422 .tip 4 1 0 ⟨[0], (), []⟩ = .error () ∧
    (∃ st2, decode_sb wrU dbU f420 .tip 4 0 0 ⟨[2], (), []⟩ = .ok st2) ∧
    (∃ st2, decode_sb wrU dbU f422 .tip 4 0 0 ⟨[0], (), []⟩ = .ok st2) := by
  refine ⟨?_, ?_, ?_, ?_⟩
  · exact (decode_sb_i422_v_family wrU dbU f422 .tip 4 0 0 ⟨[2], (), []⟩).1
      rfl rfl (by decide) (by decide) (by decide)
  · exact (decode_sb_i422_v_family wrU dbU f422 .tip 4 1 0 ⟨[0], (), []⟩).2.1
      rfl rfl (by decide) (by decide) (by decide)
  · exact (decode_sb_i422_v_family wrU dbU f420 .tip 4 0 0 ⟨[2], (), []⟩).2.2.1 rfl
  · exact (decode_sb_i422_v_family wrU dbU f422 .tip 4 0 0 ⟨[0], (), []⟩).2.2.2
      (by decide) (by decide) (by decide) (by decide)

theorem sb_terminal_H4_calls {σ : Type} (db : DecBCall → List Nat × σ → List Nat × σ)
    (f : SbFrame) (bl bx by_ : Nat) (st : WalkSt σ) :
    (sb_terminal db f bl .H4 bx by_ st).calls =
      st.calls ++ [⟨bl, .H4, bx, by_⟩, ⟨bl, .H4, bx, by_ + 16 >>> bl >>> 1⟩,
                   ⟨bl, .H4, bx, by_ + 2 * (16 >>> bl >>> 1)⟩] ++
        (if by_ + 3 * (16 >>> bl >>> 1) < f.bh then
          [⟨bl, .H4, bx, by_ + 3 * (16 >>> bl >>> 1)⟩] else []) := by
  unfold sb_terminal
  split_ifs with h4 <;> simp [callB_calls]

theorem sb_terminal_V4_calls {σ : Type} (db : DecBCall → List Nat × σ → List Nat × σ)
    (f : SbFrame) (bl bx by_ : Nat) (st : WalkSt σ) :
    (sb_terminal db f bl .V4 bx by_ st).calls =
      st.calls ++ [⟨bl, .V4, bx, by_⟩, ⟨bl, .V4, bx + 16 >>> bl >>> 1, by_⟩,
                   ⟨bl, .V4, bx + 2 * (16 >>> bl >>> 1), by_⟩] ++
        (if bx + 3 * (16 >>> bl >>> 1) < f.bw then
          [⟨bl, .V4, bx + 3 * (16 >>> bl >>> 1), by_⟩] else []) := by
  unfold sb_terminal
  split_ifs with h4 <;> simp [callB_calls]

/-- Claim C9: at frame edges, when neither the horizontal nor the vertical
half of the current level fits inside the frame, `decode_sb` reads no
partition symbol and recurses as a forced `PARTITION_SPLIT` into the next
level (the walker state, its oracle stream included, is handed over
untouched); and an `H4` (resp. `V4`) partition decodes its fourth quarter
only when that quarter's origin lies inside the frame, skipping it
otherwise. -/

theorem decode_sb_edge_forced {σ : Type} (wr : Nat → BlockPartition → σ → σ)
    (db : DecBCall → List Nat × σ → List Nat × σ) (f : SbFrame)
    (s0 s1 s2 s3 : EdgeNd) (node : EdgeNd) (bl bx by_ : Nat) (st : WalkSt σ) :
    (¬(bx + 16 >>> bl < f.bw) → ¬(by_ + 16 >>> bl < f.bh) → bl < 4 →
      decode_sb wr db f (.branch s0 s1 s2 s3) bl bx by_ st =
        decode_sb wr db f s0 (bl + 1) bx by_ st) ∧
    (bx + 16 >>> bl < f.bw → by_ + 16 >>> bl < f.bh →
      (sb_part f bl bx by_ st).1 = .H4 →
      ∃ st2, decode_sb wr db f node bl bx by_ st = .ok st2 ∧
        st2.calls = st.calls ++
          [⟨bl, .H4, bx, by_⟩, ⟨bl, .H4, bx, by_ + 16 >>> bl >>> 1⟩,
           ⟨bl, .H4, bx, by_ + 2 * (16 >>> bl >>> 1)⟩] ++
          (if by_ + 3 * (16 >>> bl >>> 1) < f.bh then
            [⟨bl, .H4, bx, by_ + 3 * (16 >>> bl >>> 1)⟩] else [])) ∧
    (f.layoutI422 = false → bx + 16 >>> bl < f.bw → by_ + 16 >>> bl < f.bh →
      (sb_part f bl bx by_ st).1 = .V4 →
      ∃ st2, decode_sb wr db f node bl bx by_ st = .ok st2 ∧
        st2.calls = st.calls ++
          [⟨bl, .V4, bx, by_⟩, ⟨bl, .V4, bx + 16 >>> bl >>> 1, by_⟩,
           ⟨bl, .V4, bx + 2 * (16 >>> bl >>> 1), by_⟩] ++
          (if bx + 3 * (16 >>> bl >>> 1) < f.bw then
            [⟨bl, .V4, bx + 3 * (16 >>> bl >>> 1), by_⟩] else [])) := by
  refine ⟨fun h1 h2 h3 => decode_sb_forced_split wr db f s0 s1 s2 s3 bl bx by_ st h1 h2 h3,
    ?_, ?_⟩
  · intro h1 h2 hp4
    have hnv : ¬(¬f.pass2 ∧ f.layoutI422 ∧
        ((sb_part f bl bx by_ st).1 = .V ∨ (sb_part f bl bx by_ st).1 = .V4 ∨
         (sb_part f bl bx by_ st).1 = .T_LEFT_SPLIT ∨
         (sb_part f bl bx by_ st).1 = .T_RIGHT_SPLIT)) := by
      rw [hp4]; simp
    have hterm : ¬((sb_part f bl bx by_ st).1 = .SPLIT ∧ bl ≠ 4) := by
      rw [hp4]; simp
    obtain ⟨st2, hok, hcalls, -⟩ := sb_finish_ok wr f.pass2 bl .H4
      (sb_terminal db f bl .H4 bx by_ ((sb_part f bl bx by_ st).2))
    cases node with
    | tip =>
      rw [decode_sb, if_neg (fun hc => hc.1 h1), if_pos ⟨h1, h2⟩, if_neg hnv,
          if_neg hterm, hp4]
      exact ⟨st2, hok, by rw [hcalls, sb_terminal_H4_calls, sb_part_calls]⟩
    | branch t0 t1 t2 t3 =>
      rw [decode_sb, if_neg (fun hc => hc.1 h1), if_pos ⟨h1, h2⟩, if_neg hnv,
          if_neg hterm, hp4]
      exact ⟨st2, hok, by rw [hcalls, sb_terminal_H4_calls, sb_part_calls]⟩
  · intro hL h1 h2 hp4
    have hnv : ¬(¬f.pass2 ∧ f.layoutI422 ∧
        ((sb_part f bl bx by_ st).1 = .V ∨ (sb_part f bl bx by_ st).1 = .V4 ∨
         (sb_part f bl bx by_ st).1 = .T_LEFT_SPLIT ∨
         (sb_part f bl bx by_ st).1 = .T_RIGHT_SPLIT)) := by
      rw [hL]; simp
    have hterm : ¬((sb_part f bl bx by_ st).1 = .SPLIT ∧ bl ≠ 4) := by
      rw [hp4]; simp
    obtain ⟨st2, hok, hcalls, -⟩ := sb_finish_ok wr f.pass2 bl .V4
      (sb_terminal db f bl .V4 bx by_ ((sb_part f bl bx by_ st).2))
    cases node with
    | tip =>
      rw [decode_sb, if_neg (fun hc => hc.1 h1), if_pos ⟨h1, h2⟩, if_neg hnv,
          if_neg hterm, hp4]
      exact ⟨st2, hok, by rw [hcalls, sb_terminal_V4_calls, sb_part_calls]⟩
    | branch t0 t1 t2 t3 =>
      rw [decode_sb, if_neg (fun hc => hc.1 h1), if_pos ⟨h1, h2⟩, if_neg hnv,
          if_neg hterm, hp4]
      exact ⟨st2, hok, by rw [hcalls, sb_terminal_V4_calls, sb_part_calls]⟩

/-- Witness for C9: the forced split at the 2x2 frame where no half of
level 0 fits, and `H4` / `V4` symbols at level 3 of an 8x8 frame whose
fourth quarters (origin 3 < 8) are all decoded. -/

theorem decode_sb_edge_forced_witness :
    decode_sb wrU dbU f422 (.branch .tip .tip .tip .tip) 0 0 0 ⟨[], (), []⟩ =
      decode_sb wrU dbU f422 .tip 1 0 0 ⟨[], (), []⟩ ∧
    (∃ st2, decode_sb wrU dbU f9 .tip 3 0 0 ⟨[8], (), []⟩ = .ok st2 ∧
      st2.calls = [] ++
        [⟨3, .H4, 0, 0⟩, ⟨3, .H4, 0, 0 + 16 >>> 3 >>> 1⟩,
         ⟨3, .H4, 0, 0 + 2 * (16 >>> 3 >>> 1)⟩] ++
        (if 0 + 3 * (16 >>> 3 >>> 1) < f9.bh then
          [⟨3, .H4, 0, 0 + 3 * (16 >>> 3 >>> 1)⟩] else [])) ∧
    (∃ st2, decode_sb wrU dbU f9 .tip 3 0 0 ⟨[9], (), []⟩ = .ok st2 ∧
      st2.calls = [] ++
        [⟨3, .V4, 0, 0⟩, ⟨3, .V4, 0 + 16 >>> 3 >>> 1, 0⟩,
         ⟨3, .V4, 0 + 2 * (16 >>> 3 >>> 1), 0⟩] ++
        (if 0 + 3 * (16 >>> 3 >>> 1) < f9.bw then
          [⟨3, .V4, 0 + 3 * (16 >>> 3 >>> 1), 0⟩] else [])) := by
  refine ⟨?_, ?_, ?_⟩
  · exact (decode_sb_edge_forced wrU dbU f422 .tip .tip .tip .tip .tip 0 0 0
      ⟨[], (), []⟩).1 (by decide) (by decide) (by decide)
  · exact (decode_sb_edge_forced wrU dbU f9 .tip .tip .tip .tip .tip 3 0 0
      ⟨[8], (), []⟩).2.1 (by decide) (by decide) (by decide)
  · exact (decode_sb_edge_forced wrU dbU f9 .tip .tip .tip .tip .tip 3 0 0
      ⟨[9], (), []⟩).2.2 rfl (by decide) (by decide) (by decide)

theorem sb_finish_pass2 {σ : Type} (wr : Nat → BlockPartition → σ → σ)
    (bl : Nat) (bp : BlockPartition) (st : WalkSt σ) :
    sb_finish wr true bl bp (.ok st) = .ok st := by
  simp [sb_finish]

theorem callB_pass2 {σ : Type} (db : DecBCall → List Nat × σ → List Nat × σ)
    (g : DecBCall → σ → σ) (hdb : ∀ c s cx, db c (s, cx) = (s, g c cx))
    (bl : Nat) (bp : BlockPartition) (bx by_ : Nat) (s : List Nat) (cx : σ)
    (cs : List DecBCall) :
    callB db bl bp bx by_ ⟨s, cx, cs⟩ =
      ⟨s, g ⟨bl, bp, bx, by_⟩ cx, cs ++ [⟨bl, bp, bx, by_⟩]⟩ := by
  simp [callB, hdb]

theorem sb_terminal_pass2 {σ : Type} (db : DecBCall → List Nat × σ → List Nat × σ)
    (g : DecBCall → σ → σ) (hdb : ∀ c s cx, db c (s, cx) = (s, g c cx))
    (f : SbFrame) (bl : Nat) (bp : BlockPartition) (bx by_ : Nat)
    (s : List Nat) (cx : σ) (cs : List DecBCall) :
    sb_terminal db f bl bp bx by_ ⟨s, cx, cs⟩ =
      ⟨s, (sb_terminal_p2 g f bl bp bx by_ (cx, cs)).1,
          (sb_terminal_p2 g f bl bp bx by_ (cx, cs)).2⟩ := by
  cases bp <;>
    simp only [sb_terminal, sb_terminal_p2] <;>
    first
    | (split_ifs <;> simp [callB_pass2 db g hdb, callB_p2])
    | simp [callB_pass2 db g hdb, callB_p2]

/-- In pass 2 the walker coincides with the coder-free walk: it cannot
error, returns its oracle stream untouched, and its context and call
ledger are computed by a function that never sees the stream. -/

theorem decode_sb_pass2_refines {σ : Type} (wr : Nat → BlockPartition → σ → σ)
    (db : DecBCall → List Nat × σ → List Nat × σ) (g : DecBCall → σ → σ)
    (hdb : ∀ c s cx, db c (s, cx) = (s, g c cx))
    (f : SbFrame) (hp : f.pass2 = true) :
    ∀ (node : EdgeNd) (bl bx by_ : Nat) (s : List Nat) (cx : σ) (cs : List DecBCall),
      decode_sb wr db f node bl bx by_ ⟨s, cx, cs⟩ =
        .ok ⟨s, (decode_sb_p2 g f node bl bx by_ (cx, cs)).1,
                (decode_sb_p2 g f node bl bx by_ (cx, cs)).2⟩ := by
  intro node
  induction node with
  | tip =>
    intro bl bx by_ s cx cs
    rw [decode_sb, decode_sb_p2]
    simp only [sb_part, sb_is_split, hp, eq_self_iff_true, not_true, false_and,
      if_false, if_true, decide_eq_true_eq, ite_true, ite_false, Bool.true_eq_false,
      Bool.not_eq_true, decide_eq_false_iff_not, ne_eq]
    split_ifs <;>
      first
      | rfl
      | simp only [sb_terminal_pass2 db g hdb, callB_pass2 db g hdb, sb_finish_pass2,
          callB_p2, Prod.mk.eta]
  | branch s0 s1 s2 s3 ih0 ih1 ih2 ih3 =>
    intro bl bx by_ s cx cs
    rw [decode_sb, decode_sb_p2]
    simp only [sb_part, sb_is_split, hp, eq_self_iff_true, not_true, false_and,
      if_false, if_true, decide_eq_true_eq, ite_true, ite_false, Bool.true_eq_false,
      Bool.not_eq_true, decide_eq_false_iff_not, ne_eq]
    split_ifs <;>
      first
      | rfl
      | exact ih0 _ _ _ _ _ _
      | simp only [ih0, ih1, ih2, ih3, sb_terminal_pass2 db g hdb, callB_pass2 db g hdb,
          sb_finish_pass2, callB_p2, Prod.mk.eta]

/-- Claim C6: in frame-parallel pass 2 neither `decode_b` nor `decode_sb`
reads the range coder.  The pass-2 branch of `decode_b` is a pure context
transform that returns the oracle stream verbatim, and under any block
stage of that shape the whole pass-2 walk returns `.ok` with its stream
untouched and a context and call ledger computed by the coder-free walk
`decode_sb_p2`, whose decisions come only from the pre-parsed block
array. -/

theorem pass2_no_msac {σ : Type} (wr : Nat → BlockPartition → σ → σ)
    (db : DecBCall → List Nat × σ → List Nat × σ) (g : DecBCall → σ → σ)
    (hdb : ∀ c s cx, db c (s, cx) = (s, g c cx))
    (f : SbFrame) (hp : f.pass2 = true)
    (node : EdgeNd) (bl bx by_ : Nat) (s : List Nat) (cx : σ) (cs : List DecBCall) :
    (∀ (f2 : SbFrame) (fd : Nat → Nat × Nat) (hc : Bool) (sh sv : Nat)
       (dim : Nat → Nat × Nat) (c : DecBCall)
       (p : List Nat × (BlockContext × BlockContext)),
       (decode_b_pass2_db f2 fd hc sh sv dim c p).1 = p.1) ∧
    decode_sb wr db f node bl bx by_ ⟨s, cx, cs⟩ =
      .ok ⟨s, (decode_sb_p2 g f node bl bx by_ (cx, cs)).1,
              (decode_sb_p2 g f node bl bx by_ (cx, cs)).2⟩ :=
  ⟨fun _ _ _ _ _ _ _ _ => rfl,
   decode_sb_pass2_refines wr db g hdb f hp node bl bx by_ s cx cs⟩

/-- Witness for C6: the walker instantiated with the modelled pass-2
`decode_b` on a concrete 2x2 pass-2 frame hands back the oracle stream
`[5]` untouched. -/

theorem pass2_no_msac_witness :
    (decode_b_pass2_db fp2 fdU true 1 1 dimU ⟨4, .NONE, 0, 0⟩ ([5], (ctxB, ctxB))).1 =
      [5] ∧
    decode_sb wrB (decode_b_pass2_db fp2 fdU true 1 1 dimU) fp2 .tip 4 0 0
        ⟨[5], (ctxB, ctxB), []⟩ =
      .ok ⟨[5], (decode_sb_p2 gP fp2 .tip 4 0 0 ((ctxB, ctxB), [])).1,
               (decode_sb_p2 gP fp2 .tip 4 0 0 ((ctxB, ctxB), [])).2⟩ := by
  have h := pass2_no_msac wrB (decode_b_pass2_db fp2 fdU true 1 1 dimU) gP
    (fun _ _ _ => rfl) fp2 rfl .tip 4 0 0 [5] (ctxB, ctxB) []
  exact ⟨h.1 fp2 fdU true 1 1 dimU ⟨4, .NONE, 0, 0⟩ ([5], (ctxB, ctxB)), h.2⟩

/-- Claim C1 counterexample: for a block with `y_mode = FILTER_PRED` the
above-context mode entry at the block's first column holds `DC_PRED`, not
the block's `y_mode` — the writeback stores `y_mode_nofilt`
(src/decode.c lines 1118-1121), so the grid entry is not value-equal to
the `Av1Block` field the claim names. -/

theorem ctx_intra_mode_not_block_field :
    (decode_b_ctx_intra bF 0 false false false 0 0 1 1 0 0 1 1 ctxB ctxB
        (fun _ => 0) (fun _ => 0)).1.mode 0 = DC_PRED ∧
    bF.y_mode = FILTER_PRED ∧ DC_PRED ≠ FILTER_PRED := by
  refine ⟨?_, rfl, by decide⟩
  simp [decode_b_ctx_intra, ctxFill, ctxB, bF, DC_PRED, FILTER_PRED]

/-- Claim C1 (amended): after `decode_b`'s intra writeback (lines
1099-1155 with the common tail 1737-1744), every above-context entry in
the block's 4x4 columns and every left-context entry in its 4x4 rows holds
the corresponding field of the parsed block record, with three documented
exceptions: the mode entry stores `y_mode` with `FILTER_PRED` replaced by
`DC_PRED`; the tx entries store the 4x4-log dimensions of the block's
transform (`tLw`/`tLh`), not the tx code; and on inter frames the
inter-only entries are reset to intra sentinels (`COMP_INTER_NONE`,
reference `-1`, filter `N_SWITCHABLE_FILTERS`) rather than the block's
values.  The chroma palette-size grid keeps luma coordinates. -/

theorem decode_b_ctx_intra_fields (b : Av1Block) (seg_pred : Nat)
    (frame_is_inter allow_intrabc has_chroma : Bool) (ss_hor ss_ver tLw tLh : Nat)
    (bx4 by4 bw4 bh4 : Nat) (a l : BlockContext) (pua pul : Nat → Nat)
    (t u tc uc : Nat)
    (hta : bx4 ≤ t) (hta2 : t < bx4 + bw4)
    (hul : by4 ≤ u) (hul2 : u < by4 + bh4)
    (htc : bx4 >>> ss_hor ≤ tc)
    (htc2 : tc < bx4 >>> ss_hor + ((bw4 + ss_hor) >>> ss_hor))
    (huc : by4 >>> ss_ver ≤ uc)
    (huc2 : uc < by4 >>> ss_ver + ((bh4 + ss_ver) >>> ss_ver)) :
    ∀ r, r = decode_b_ctx_intra b seg_pred frame_is_inter allow_intrabc has_chroma
        ss_hor ss_ver tLw tLh bx4 by4 bw4 bh4 a l pua pul →
      r.1.intra t = b.intra ∧
      r.1.skip t = b.skip ∧
      r.1.skip_mode t = b.skip_mode ∧
      r.1.seg_pred t = seg_pred ∧
      r.1.mode t = (if b.y_mode = FILTER_PRED then DC_PRED else b.y_mode) ∧
      r.1.pal_sz t = b.pal_sz0 ∧
      r.1.tx_intra t = (tLw : Int) ∧
      (has_chroma = true → r.1.uvmode tc = b.uv_mode) ∧
      r.2.2.1 t = (if has_chroma then b.pal_sz1 else 0) ∧
      ((frame_is_inter || allow_intrabc) = true → r.1.tx t = tLw) ∧
      (frame_is_inter = true →
        r.1.comp_type t = COMP_INTER_NONE ∧ r.1.ref0 t = -1 ∧ r.1.ref1 t = -1 ∧
        r.1.filter0 t = N_SWITCHABLE_FILTERS ∧ r.1.filter1 t = N_SWITCHABLE_FILTERS) ∧
      r.2.1.intra u = b.intra ∧
      r.2.1.skip u = b.skip ∧
      r.2.1.skip_mode u = b.skip_mode ∧
      r.2.1.seg_pred u = seg_pred ∧
      r.2.1.mode u = (if b.y_mode = FILTER_PRED then DC_PRED else b.y_mode) ∧
      r.2.1.pal_sz u = b.pal_sz0 ∧
      r.2.1.tx_intra u = (tLh : Int) ∧
      (has_chroma = true → r.2.1.uvmode uc = b.uv_mode) ∧
      r.2.2.2 u = (if has_chroma then b.pal_sz1 else 0) ∧
      ((frame_is_inter || allow_intrabc) = true → r.2.1.tx u = tLh) ∧
      (frame_is_inter = true →
        r.2.1.comp_type u = COMP_INTER_NONE ∧ r.2.1.ref0 u = -1 ∧ r.2.1.ref1 u = -1 ∧
        r.2.1.filter0 u = N_SWITCHABLE_FILTERS ∧ r.2.1.filter1 u = N_SWITCHABLE_FILTERS) := by
  intro r hr
  subst hr
  cases frame_is_inter <;> cases allow_intrabc <;> cases has_chroma <;>
    simp_all [decode_b_ctx_intra, ctxFill]

/-- Witness for C1's amended theorem: a 2x2 block at the origin with
`y_mode = FILTER_PRED` on an inter frame with 4:2:0 subsampling, checked
at column 1, row 0, chroma column 0 and chroma row 0. -/

theorem decode_b_ctx_intra_fields_witness :
    (0:Nat) ≤ 1 ∧ (1:Nat) < 0 + 2 ∧
    (decode_b_ctx_intra bF 1 true false true 1 1 2 3 0 0 2 2 ctxB ctxB
        (fun _ => 0) (fun _ => 0)).1.intra 1 = bF.intra := by
  refine ⟨by decide, by decide, ?_⟩
  exact (decode_b_ctx_intra_fields bF 1 true false true 1 1 2 3 0 0 2 2 ctxB ctxB
    (fun _ => 0) (fun _ => 0) 1 0 0 0 (by decide) (by decide) (by decide) (by decide)
    (by decide) (by decide) (by decide) (by decide) _ rfl).1

/-- Witness for C8 at `n = 3`, `v = 2`, remaining stream `[true]`. -/

theorem get_uniform_round_trip_witness :
    1 ≤ 3 ∧ 2 < 3 ∧
    get_uniform 3 (put_uniform 3 2 ++ [true]) = (2, [true]) ∧
    (get_uniform 3 [false, false, false]).1 < 3 := by
  refine ⟨by norm_num, by norm_num, ?_, ?_⟩
  · exact (get_uniform_round_trip 3 2 (by norm_num) (by norm_num)).1 [true]
  · exact (get_uniform_round_trip 3 2 (by norm_num) (by norm_num)).2 _

end Dav1d
